import Mathlib

/-!
# EmbeddedButton: Timer and Button

A shallow embedding of `src/Timer.hpp` and `src/Button.hpp`.

* `ClockType` (`unsigned long`) values are natural numbers; every arithmetic
  operation on them is reduced modulo `2 ^ w`, where `w` is the width of the
  counter (a parameter of the development).
* `int32_t` values (`_duration`, `_remaining`) are integers.
* `assert` failures are the `none` result of an `Option`.
* The clock and the pin are external collaborators: every operation that reads
  `Clock::now()` / `_clock()` or `_pin.read()` takes the value read as an argument.
  One `Button::update()` call reads one clock value and one pin sample.
* `Timer` holds the data members of the class other than its two pointers, and its
  operations are those of a timer whose clock pointer `_clock` is not null, as it is for
  the debounce timer of a Button. `ClockedTimer` adds the pointer, which is null after a
  move or a `change(..., nullptr)`, and the operations that call it.
* Handlers are function pointers to user code. A slot is `Option Nat` (the identity
  of the function, `none` for `nullptr`); a call is recorded in the list of calls
  that `update` returns. The body of a handler is outside of the repository and is
  taken to leave the Button as it is.
-/

namespace EmbeddedButton

/-! ## Fixed-width unsigned arithmetic -/

/-- Addition of two `w`-bit unsigned values. -/
def wadd (w a b : Nat) : Nat := (a + b) % 2 ^ w

/-- Subtraction of two `w`-bit unsigned values (wraps below zero). -/
def wsub (w a b : Nat) : Nat := (a % 2 ^ w + (2 ^ w - b % 2 ^ w)) % 2 ^ w

/-! ## Timer (`src/Timer.hpp`) -/

/-- Sentinel `Duration::Endless`. -/
def Duration.Endless : Int := -1

/-- Sentinel `Duration::Never`. -/
def Duration.Never : Int := 0

/-- Sentinel `Duration::Once`. -/
def Duration.Once : Int := 1

/-- The data members of `class Timer` other than its two pointers. The callback pointer is
left out: it is invoked exactly when `update` returns `true`, and it cannot reach the
timer. The clock pointer `_clock` is the field `clock` of `ClockedTimer`; here the value
the clock returns is an argument of `start`, `restart` and `update`. -/
structure Timer where
  dueTime : Nat
  period : Nat
  tick : Nat
  duration : Int
  remaining : Int
  running : Bool
deriving DecidableEq, Repr

/-- The constructor `Timer(callback, dueTime, period, duration, clock)`, for the members
other than the two pointers; `ClockedTimer.new` adds `_clock`. -/
def Timer.new (dueTime period : Nat) (duration : Int) : Timer :=
  { dueTime := dueTime
    period := period
    tick := 0
    duration := if duration ≥ 0 then duration else Duration.Endless
    remaining := if duration ≥ 0 then duration else Duration.Endless
    running := false }

/-- The constructor `Timer(delay)`. -/
def Timer.newDelay (delay : Nat) : Timer :=
  Timer.new delay 0 Duration.Once

/-- The accessor `endless()`. -/
def Timer.endless (t : Timer) : Bool := t.duration == Duration.Endless

/-- The accessor `completed()`. -/
def Timer.completed (t : Timer) : Bool := !t.endless && t.remaining == 0

/-- The accessor `paused()`. -/
def Timer.paused (t : Timer) : Bool := !t.running && !t.completed

/-- The method `change(dueTime, period, duration)`; `none` when the assertion fails. -/
def Timer.change (t : Timer) (dueTime period : Nat) (duration : Int) : Option Timer :=
  if t.running then none
  else some { t with
    dueTime := dueTime
    period := period
    duration := if duration ≥ 0 then duration else Duration.Endless
    remaining := if duration ≥ 0 then duration else Duration.Endless }

/-- The method `change(delay)`. -/
def Timer.changeDelay (t : Timer) (delay : Nat) : Option Timer :=
  t.change delay 0 Duration.Once

/-- The method `start(startTime)`; `none` when one of the two assertions fails. -/
def Timer.start (t : Timer) (startTime : Nat) : Option Timer :=
  if t.running then none
  else if t.completed then none
  else some { t with tick := startTime, running := true }

/-- The method `stop()`. -/
def Timer.stop (t : Timer) : Timer := { t with running := false }

/-- The method `restart(delay)` on a timer whose clock pointer is not null; `now` is the
value read from the clock by `start()`. With the pointer: `ClockedTimer.restartDelay`. -/
def Timer.restartDelay (t : Timer) (now delay : Nat) : Option Timer :=
  match t.stop.changeDelay delay with
  | none => none
  | some t1 => t1.start now

/-- The method `restart(dueTime, period, duration)` on a timer whose clock pointer is not
null; `now` is the value read from the clock by `start()`. With the pointer:
`ClockedTimer.restart`. -/
def Timer.restart (t : Timer) (now dueTime period : Nat) (duration : Int) : Option Timer :=
  match t.stop.change dueTime period duration with
  | none => none
  | some t1 => t1.start now

/-- The private method `ready(updateTime)`:
`(updateTime + _period - _tick) >= (_dueTime + _period)` on `w`-bit unsigned values. -/
def Timer.ready (w : Nat) (t : Timer) (updateTime : Nat) : Bool :=
  decide (wadd w t.dueTime t.period ≤ wsub w (wadd w updateTime t.period) t.tick)

/-- The private method `execute()`. The decrement of `_remaining` is an integer
decrement: it is reached only when the timer is not endless. -/
def Timer.execute (w : Nat) (t : Timer) : Timer :=
  let t1 : Timer := { t with tick := wadd w t.tick t.period }
  if t1.endless then t1
  else
    let t2 : Timer := { t1 with remaining := t1.remaining - 1 }
    if t2.remaining == 0 then t2.stop else t2

/-- The method `update(updateTime)`: the timer after the call and the value returned. -/
def Timer.update (w : Nat) (t : Timer) (updateTime : Nat) : Timer × Bool :=
  if t.running && t.ready w updateTime then (t.execute w, true)
  else (t, false)

/-- A sequence of `update(now)` calls: the timer at the end and the values returned. -/
def Timer.updates (w : Nat) : Timer → List Nat → Timer × List Bool
  | t, [] => (t, [])
  | t, now :: rest =>
    let r := t.update w now
    let rs := Timer.updates w r.1 rest
    (rs.1, r.2 :: rs.2)

/-! ## Timer with its clock pointer -/

/-- The identity of the function `Clock::now`, the value of `Timer::ClockDefault`. -/
def ClockDefault : Nat := 0

/-- The Timer object with its `_clock` member: `timer` holds the other data members and
`clock` the pointer, as the identity of the clock function, `none` for `nullptr`. -/
structure ClockedTimer where
  timer : Timer
  clock : Option Nat
deriving DecidableEq, Repr

/-- The constructor `Timer(callback, dueTime, period, duration, clock)`: a null `clock`
is replaced by `ClockDefault`. -/
def ClockedTimer.new (dueTime period : Nat) (duration : Int) (clock : Option Nat) :
    ClockedTimer :=
  { timer := Timer.new dueTime period duration
    clock := match clock with
      | some c => some c
      | none => some ClockDefault }

/-- The state that the move constructor and the move assignment leave in their source:
every member zero, `_clock` null. -/
def ClockedTimer.moved : ClockedTimer :=
  { timer := ⟨0, 0, 0, 0, 0, false⟩, clock := none }

/-- The method `change(dueTime, period, duration)`. -/
def ClockedTimer.change (o : ClockedTimer) (dueTime period : Nat) (duration : Int) :
    Option ClockedTimer :=
  match o.timer.change dueTime period duration with
  | none => none
  | some t => some { o with timer := t }

/-- The method `change(dueTime, period, duration, clock)`: `_clock` is set to the argument
as it is, null included. -/
def ClockedTimer.changeClock (o : ClockedTimer) (dueTime period : Nat) (duration : Int)
    (clock : Option Nat) : Option ClockedTimer :=
  match o.change dueTime period duration with
  | none => none
  | some o1 => some { o1 with clock := clock }

/-- The method `change(delay)`. -/
def ClockedTimer.changeDelay (o : ClockedTimer) (delay : Nat) : Option ClockedTimer :=
  o.change delay 0 Duration.Once

/-- The method `change(delay, clock)`. -/
def ClockedTimer.changeDelayClock (o : ClockedTimer) (delay : Nat) (clock : Option Nat) :
    Option ClockedTimer :=
  o.changeClock delay 0 Duration.Once clock

/-- The call `_clock()`: with a null pointer the call does not return (`none`); otherwise
it returns `now`, the reading of the clock at the time of the call. -/
def ClockedTimer.readClock (o : ClockedTimer) (now : Nat) : Option Nat :=
  match o.clock with
  | none => none
  | some _ => some now

/-- The method `start(startTime)`. -/
def ClockedTimer.start (o : ClockedTimer) (startTime : Nat) : Option ClockedTimer :=
  match o.timer.start startTime with
  | none => none
  | some t => some { o with timer := t }

/-- The method `start()`, which is `start(_clock())`. -/
def ClockedTimer.startNow (o : ClockedTimer) (now : Nat) : Option ClockedTimer :=
  match o.readClock now with
  | none => none
  | some startTime => o.start startTime

/-- The method `stop()`. -/
def ClockedTimer.stop (o : ClockedTimer) : ClockedTimer :=
  { o with timer := o.timer.stop }

/-- The method `restart(delay)`: `stop()`, `change(delay)`, `start()`. -/
def ClockedTimer.restartDelay (o : ClockedTimer) (now delay : Nat) : Option ClockedTimer :=
  match o.stop.changeDelay delay with
  | none => none
  | some o1 => o1.startNow now

/-- The method `restart(dueTime, period, duration)`: `stop()`, `change(dueTime, period,
duration)`, `start()`. -/
def ClockedTimer.restart (o : ClockedTimer) (now dueTime period : Nat) (duration : Int) :
    Option ClockedTimer :=
  match o.stop.change dueTime period duration with
  | none => none
  | some o1 => o1.startNow now

/-- The method `update()`, which is `update(_clock())`. -/
def ClockedTimer.updateNow (w : Nat) (o : ClockedTimer) (now : Nat) :
    Option (ClockedTimer × Bool) :=
  match o.readClock now with
  | none => none
  | some updateTime =>
    let r := o.timer.update w updateTime
    some ({ o with timer := r.1 }, r.2)

/-! ## Button (`src/Button.hpp`) -/

/-- Modelled from the spec: `ButtonPinStatus.hpp` is not among the sources. The spec
gives the pin collaborator as `read() → {High, Low}`, a two-level sensor. -/
inductive ButtonPinStatus where
  | Low
  | High
deriving DecidableEq, Repr

/-- The enumeration `ButtonEvent`. -/
inductive ButtonEvent where
  | None
  | Press
  | Release
  | Hold
  | LongPress
deriving DecidableEq, Repr

/-- The constant `Button::DebounceDelayDuration`. -/
def DebounceDelayDuration : Nat := 5

/-- The constant `Button::DefaultLongPressDuration`. -/
def DefaultLongPressDuration : Nat := 2000

/-- The constant `Button::DefaultActiveLevel`. -/
def DefaultActiveLevel : ButtonPinStatus := ButtonPinStatus.High

/-- The data members of `class Button`, without the tag and the pin number (the
sample read from the pin is an argument of `update`). -/
structure Button where
  debounceTimer : Timer
  press : Option Nat
  release : Option Nat
  hold : Option Nat
  longPress : Option Nat
  lastPress : Nat
  lastRelease : Nat
  longPressMs : Nat
  longPressTriggered : Bool
  upState : ButtonPinStatus
  downState : ButtonPinStatus
  prevState : ButtonPinStatus
deriving DecidableEq, Repr

/-- The constructor `Button(pin, activeLevel, longPressMs, tag)`. -/
def Button.new (activeLevel : ButtonPinStatus) (longPressMs : Nat) : Button :=
  let timer := Timer.new DebounceDelayDuration 0 Duration.Never
  match activeLevel with
  | ButtonPinStatus.Low =>
    { debounceTimer := timer
      press := none, release := none, hold := none, longPress := none
      lastPress := 0, lastRelease := 0
      longPressMs := longPressMs
      longPressTriggered := false
      upState := ButtonPinStatus.High
      downState := ButtonPinStatus.Low
      prevState := ButtonPinStatus.High }
  | ButtonPinStatus.High =>
    { debounceTimer := timer
      press := none, release := none, hold := none, longPress := none
      lastPress := 0, lastRelease := 0
      longPressMs := longPressMs
      longPressTriggered := false
      upState := ButtonPinStatus.Low
      downState := ButtonPinStatus.High
      prevState := ButtonPinStatus.Low }

/-- The method `setHandler(btnEvent, handler)`. -/
def Button.setHandler (b : Button) (btnEvent : ButtonEvent) (handler : Option Nat) : Button :=
  match btnEvent with
  | ButtonEvent.Press => { b with press := handler }
  | ButtonEvent.Release => { b with release := handler }
  | ButtonEvent.Hold => { b with hold := handler }
  | ButtonEvent.LongPress => { b with longPress := handler }
  | ButtonEvent.None => b

/-- The method `removeHandler(btnEvent)`. -/
def Button.removeHandler (b : Button) (btnEvent : ButtonEvent) : Button :=
  b.setHandler btnEvent none

/-- The method `removeAllHandlers()`. -/
def Button.removeAllHandlers (b : Button) : Button :=
  (((b.removeHandler ButtonEvent.Press).removeHandler ButtonEvent.Release).removeHandler
    ButtonEvent.Hold).removeHandler ButtonEvent.LongPress

/-- The method `setLongPressDuration(longPressMs)`. -/
def Button.setLongPressDuration (b : Button) (longPressMs : Nat) : Button :=
  { b with longPressMs := longPressMs }

/-- The private method `detectEvent()`, with the clock value `now` and the pin sample
`pin` it reads: the Button after the call and the event detected; `none` when an
assertion of the debounce timer fails. -/
def Button.detectEvent (w : Nat) (b : Button) (now : Nat) (pin : ButtonPinStatus) :
    Option (Button × ButtonEvent) :=
  if !b.debounceTimer.running then
    let currentState := pin
    if b.prevState != currentState then
      match b.debounceTimer.restartDelay now DebounceDelayDuration with
      | none => none
      | some t => some ({ b with debounceTimer := t }, ButtonEvent.None)
    else if currentState == b.downState then
      if b.longPressMs != 0 && !b.longPressTriggered
          && decide (b.longPressMs < wsub w now b.lastPress) then
        some (b, ButtonEvent.LongPress)
      else
        some (b, ButtonEvent.Hold)
    else
      some (b, ButtonEvent.None)
  else
    let r := b.debounceTimer.update w now
    if r.2 then
      let currentState := pin
      let btnEvent :=
        if b.prevState == b.upState && currentState == b.downState then ButtonEvent.Press
        else if b.prevState == b.downState && currentState == b.upState then ButtonEvent.Release
        else ButtonEvent.None
      some ({ b with debounceTimer := r.1, prevState := currentState }, btnEvent)
    else
      some ({ b with debounceTimer := r.1 }, ButtonEvent.None)

/-- The private method `doPress()`: the Button after the call and the handlers called. -/
def Button.doPress (b : Button) (now : Nat) : Button × List Nat :=
  ({ b with lastPress := now, longPressTriggered := false }, b.press.toList)

/-- The private method `doRelease()`. -/
def Button.doRelease (b : Button) (now : Nat) : Button × List Nat :=
  ({ b with lastRelease := now, longPressTriggered := false }, b.release.toList)

/-- The private method `doHold()`. -/
def Button.doHold (b : Button) : Button × List Nat :=
  (b, b.hold.toList)

/-- The private method `doLongPress()`. -/
def Button.doLongPress (b : Button) : Button × List Nat :=
  ({ b with longPressTriggered := true }, b.longPress.toList)

/-- What one `update()` call leaves behind: the Button, the event returned and the
handlers called, in the order of the calls. -/
structure Outcome where
  button : Button
  event : ButtonEvent
  calls : List Nat
deriving DecidableEq, Repr

/-- The method `update()`, with the clock value and the pin sample read during the call;
`none` when an assertion of the debounce timer fails. -/
def Button.update (w : Nat) (b : Button) (now : Nat) (pin : ButtonPinStatus) :
    Option Outcome :=
  match b.detectEvent w now pin with
  | none => none
  | some (b1, btnEvent) =>
    match btnEvent with
    | ButtonEvent.Press =>
      let r := b1.doPress now
      some { button := r.1, event := btnEvent, calls := r.2 }
    | ButtonEvent.Release =>
      let r := b1.doRelease now
      some { button := r.1, event := btnEvent, calls := r.2 }
    | ButtonEvent.Hold =>
      let r := b1.doHold
      some { button := r.1, event := btnEvent, calls := r.2 }
    | ButtonEvent.LongPress =>
      let r1 := b1.doLongPress
      let r2 := r1.1.doHold
      some { button := r2.1, event := btnEvent, calls := r1.2 ++ r2.2 }
    | ButtonEvent.None =>
      some { button := b1, event := btnEvent, calls := [] }

/-- The polling loop: one `update()` call for each (clock value, pin sample) of the
list; the Button at the end and the events returned, in order. -/
def Button.updates (w : Nat) : Button → List (Nat × ButtonPinStatus) →
    Option (Button × List ButtonEvent)
  | b, [] => some (b, [])
  | b, (now, pin) :: rest =>
    match b.update w now pin with
    | none => none
    | some o =>
      match Button.updates w o.button rest with
      | none => none
      | some (b1, evs) => some (b1, o.event :: evs)

/-! ## Predicates on states used by the theorems -/

/-- The configuration that `restart(DebounceDelayDuration)` gives the debounce timer:
a one-shot timer with one firing left. -/
def Timer.Debouncing (t : Timer) : Prop :=
  t.dueTime = DebounceDelayDuration ∧ t.period = 0 ∧ t.duration = Duration.Once
    ∧ t.remaining = 1

/-- The invariant of the Button states: the two levels differ, and a running debounce
timer is the one-shot timer that `restart(DebounceDelayDuration)` set up. -/
def Button.Ok (b : Button) : Prop :=
  b.upState ≠ b.downState ∧ (b.debounceTimer.running = true → b.debounceTimer.Debouncing)

/-- The Button states that a program can reach: a constructed Button, then any sequence of
`update()`, `setHandler()` (so `removeHandler()` and `removeAllHandlers()` too) and
`setLongPressDuration()` calls. -/
inductive Button.Reachable (w : Nat) : Button → Prop where
  | new (activeLevel : ButtonPinStatus) (longPressMs : Nat) :
      Button.Reachable w (Button.new activeLevel longPressMs)
  | update (b : Button) (now : Nat) (pin : ButtonPinStatus) (o : Outcome) :
      Button.Reachable w b → b.update w now pin = some o → Button.Reachable w o.button
  | setHandler (b : Button) (btnEvent : ButtonEvent) (handler : Option Nat) :
      Button.Reachable w b → Button.Reachable w (b.setHandler btnEvent handler)
  | setLongPressDuration (b : Button) (longPressMs : Nat) :
      Button.Reachable w b → Button.Reachable w (b.setLongPressDuration longPressMs)

/-- The sequences of events that the state machine of `detectEvent()` allows, from the
abstract state `held` (the committed level is the pressed one) and `flagged` (the long
press of this hold has been reported): Press only when released, Release, Hold and
LongPress only when held, LongPress only when not flagged; Press and Release clear the
flag, LongPress sets it. -/
def legalEvents : Bool → Bool → List ButtonEvent → Prop
  | _, _, [] => True
  | held, _, ButtonEvent.Press :: rest => held = false ∧ legalEvents true false rest
  | held, _, ButtonEvent.Release :: rest => held = true ∧ legalEvents false false rest
  | held, flagged, ButtonEvent.LongPress :: rest =>
    held = true ∧ flagged = false ∧ legalEvents true true rest
  | held, flagged, ButtonEvent.Hold :: rest => held = true ∧ legalEvents held flagged rest
  | held, flagged, ButtonEvent.None :: rest => legalEvents held flagged rest

/-- The state of a timer with due time `d`, period `P` and finite duration `D`, started
at `T0`, after `k` firings: the configuration is unchanged, the anchor `tick` is
`T0 + k * P` on the `w`-bit counter, `D - k` firings remain, and the timer runs until the
last firing. -/
def Timer.AfterFirings (w d P D T0 k : Nat) (t : Timer) : Prop :=
  t.dueTime = d ∧ t.period = P ∧ t.duration = (D : Int) ∧ t.remaining = (D : Int) - (k : Int)
    ∧ t.running = decide (k < D) ∧ t.tick = (T0 + k * P) % 2 ^ w

/-- The Timer states that a program can reach without a contract violation: a constructed
timer (every constructor delegates to the five-argument one), the state a move leaves in
its source, then any sequence of `start`, `stop`, `change`, `restart` and `update` calls
that do not fail. -/
inductive Timer.Reachable (w : Nat) : Timer → Prop where
  | new (dueTime period : Nat) (duration : Int) :
      Timer.Reachable w (Timer.new dueTime period duration)
  | moved : Timer.Reachable w ⟨0, 0, 0, 0, 0, false⟩
  | start (t : Timer) (startTime : Nat) (t1 : Timer) :
      Timer.Reachable w t → t.start startTime = some t1 → Timer.Reachable w t1
  | stop (t : Timer) : Timer.Reachable w t → Timer.Reachable w t.stop
  | change (t : Timer) (dueTime period : Nat) (duration : Int) (t1 : Timer) :
      Timer.Reachable w t → t.change dueTime period duration = some t1 →
      Timer.Reachable w t1
  | restart (t : Timer) (now dueTime period : Nat) (duration : Int) (t1 : Timer) :
      Timer.Reachable w t → t.restart now dueTime period duration = some t1 →
      Timer.Reachable w t1
  | restartDelay (t : Timer) (now delay : Nat) (t1 : Timer) :
      Timer.Reachable w t → t.restartDelay now delay = some t1 → Timer.Reachable w t1
  | update (t : Timer) (now : Nat) :
      Timer.Reachable w t → Timer.Reachable w (t.update w now).1

/-- The invariant of the Timer states: an endless timer has `duration = remaining = -1`, any
other has `0 ≤ remaining ≤ duration`, and a running timer has something left to do. -/
def Timer.Ok (t : Timer) : Prop :=
  ((t.duration = -1 ∧ t.remaining = -1) ∨ (0 ≤ t.remaining ∧ t.remaining ≤ t.duration))
    ∧ (t.running = true → t.completed = false)

/-- Press and Release, the two events that commit a new level. -/
def ButtonEvent.isEdge (e : ButtonEvent) : Bool :=
  decide (e = ButtonEvent.Press ∨ e = ButtonEvent.Release)

/-! ## Fixed-width arithmetic: basic facts -/

theorem wsub_eq (w a b : Nat) (h : b ≤ a) (hlt : a - b < 2 ^ w) : wsub w a b = a - b := by
  unfold wsub
  generalize hm : 2 ^ w = m at *
  have hm0 : 0 < m := by rw [← hm]; positivity
  obtain ⟨c, rfl⟩ := Nat.exists_eq_add_of_le h
  simp only [Nat.add_sub_cancel_left] at hlt ⊢
  have hr : b % m < m := Nat.mod_lt _ hm0
  have h1 : (b + c) % m = (b % m + c) % m := by
    rw [Nat.add_mod, Nat.mod_eq_of_lt hlt]
  rw [h1]
  by_cases hc : b % m + c < m
  · rw [Nat.mod_eq_of_lt hc]
    have : b % m + c + (m - b % m) = c + m := by omega
    rw [this, Nat.add_mod_right, Nat.mod_eq_of_lt hlt]
  · have h2 : (b % m + c) % m = b % m + c - m := by
      rw [Nat.mod_eq_sub_mod (by omega), Nat.mod_eq_of_lt (by omega)]
    rw [h2]
    have : b % m + c - m + (m - b % m) = c := by omega
    rw [this, Nat.mod_eq_of_lt hlt]

theorem wsub_mod_left (w a b : Nat) : wsub w (a % 2 ^ w) b = wsub w a b := by
  simp [wsub]

theorem wadd_zero_right (w a : Nat) : wadd w a 0 = a % 2 ^ w := by
  simp [wadd]

theorem wsub_lt (w a b : Nat) : wsub w a b < 2 ^ w := by
  unfold wsub
  exact Nat.mod_lt _ (by positivity)

/-! ## Timer: basic facts -/

theorem Timer.restartDelay_eq (t : Timer) (now delay : Nat) :
    t.restartDelay now delay = some ⟨delay, 0, now, 1, 1, true⟩ := by
  simp [Timer.restartDelay, Timer.stop, Timer.changeDelay, Timer.change, Timer.start,
    Timer.completed, Timer.endless, Duration.Once, Duration.Endless]

/-- Readiness of a timer with period 0: the wrapped elapsed time has reached the due time. -/
theorem Timer.ready_period_zero (w : Nat) (t : Timer) (hp : t.period = 0) (now : Nat) :
    t.ready w now = decide (t.dueTime % 2 ^ w ≤ wsub w now t.tick) := by
  simp [Timer.ready, hp, wadd_zero_right, wsub_mod_left]

theorem Timer.ready_debounce (w : Nat) (hw : 5 < 2 ^ w) (t : Timer) (hp : t.period = 0)
    (hd : t.dueTime = 5) (now : Nat) (hle : t.tick ≤ now) (hlt : now - t.tick < 2 ^ w) :
    t.ready w now = decide (t.tick + 5 ≤ now) := by
  rw [Timer.ready_period_zero w t hp, hd, Nat.mod_eq_of_lt hw, wsub_eq w now t.tick hle hlt]
  congr 1
  apply propext
  omega

theorem Timer.execute_once (w : Nat) (t : Timer) (hd : t.duration = 1) (hr : t.remaining = 1) :
    t.execute w = { t with tick := wadd w t.tick t.period, remaining := 0, running := false } := by
  simp [Timer.execute, Timer.endless, Timer.stop, hd, hr, Duration.Endless]

/-! ## Button: what one `update()` call does, case by case -/

/-- Stable, sample differs from the committed level: the debounce timer is armed. -/
theorem Button.update_arm (w : Nat) (b : Button) (now : Nat) (pin : ButtonPinStatus)
    (hr : b.debounceTimer.running = false) (hne : b.prevState ≠ pin) :
    b.update w now pin =
      some ⟨{ b with debounceTimer := ⟨DebounceDelayDuration, 0, now, 1, 1, true⟩ },
        ButtonEvent.None, []⟩ := by
  simp [Button.update, Button.detectEvent, hr, hne, Timer.restartDelay_eq]

/-- Stable and released: nothing happens. -/
theorem Button.update_idle (w : Nat) (b : Button) (now : Nat) (pin : ButtonPinStatus)
    (hr : b.debounceTimer.running = false) (heq : b.prevState = pin)
    (hup : pin ≠ b.downState) :
    b.update w now pin = some ⟨b, ButtonEvent.None, []⟩ := by
  simp [Button.update, Button.detectEvent, hr, heq, hup]

/-- Stable and held, no long press due: Hold. -/
theorem Button.update_hold (w : Nat) (b : Button) (now : Nat) (pin : ButtonPinStatus)
    (hr : b.debounceTimer.running = false) (heq : b.prevState = pin)
    (hdown : pin = b.downState)
    (hc : b.longPressMs = 0 ∨ b.longPressTriggered = true
      ∨ wsub w now b.lastPress ≤ b.longPressMs) :
    b.update w now pin = some ⟨b, ButtonEvent.Hold, b.hold.toList⟩ := by
  have hcond : (b.longPressMs != 0 && !b.longPressTriggered
      && decide (b.longPressMs < wsub w now b.lastPress)) = false := by
    rcases hc with h | h | h
    · simp [h]
    · simp [h]
    · simp [Nat.not_lt.mpr h]
  simp only [Button.update, Button.detectEvent, hr, heq, hdown, hcond]
  simp [Button.doHold]

/-- Stable and held, long press due: LongPress, and the flag is set. -/
theorem Button.update_longPress (w : Nat) (b : Button) (now : Nat) (pin : ButtonPinStatus)
    (hr : b.debounceTimer.running = false) (heq : b.prevState = pin)
    (hdown : pin = b.downState)
    (hL : b.longPressMs ≠ 0) (hT : b.longPressTriggered = false)
    (hgt : b.longPressMs < wsub w now b.lastPress) :
    b.update w now pin =
      some ⟨{ b with longPressTriggered := true }, ButtonEvent.LongPress,
        b.longPress.toList ++ b.hold.toList⟩ := by
  have hcond : (b.longPressMs != 0 && !b.longPressTriggered
      && decide (b.longPressMs < wsub w now b.lastPress)) = true := by
    simp [hL, hT, hgt]
  simp only [Button.update, Button.detectEvent, hr, heq, hdown, hcond]
  simp [Button.doHold, Button.doLongPress, ← hdown, heq]

/-- Debouncing, window not over: nothing happens. -/
theorem Button.update_wait (w : Nat) (b : Button) (now : Nat) (pin : ButtonPinStatus)
    (hr : b.debounceTimer.running = true) (hnr : b.debounceTimer.ready w now = false) :
    b.update w now pin = some ⟨b, ButtonEvent.None, []⟩ := by
  simp [Button.update, Button.detectEvent, hr, hnr, Timer.update]

/-- Debouncing, window over, released to pressed: Press. -/
theorem Button.update_press (w : Nat) (b : Button) (now : Nat) (pin : ButtonPinStatus)
    (hr : b.debounceTimer.running = true) (hrd : b.debounceTimer.ready w now = true)
    (hprev : b.prevState = b.upState) (hpin : pin = b.downState) :
    b.update w now pin =
      some ⟨{ b with debounceTimer := b.debounceTimer.execute w, prevState := pin,
                     lastPress := now, longPressTriggered := false },
        ButtonEvent.Press, b.press.toList⟩ := by
  simp [Button.update, Button.detectEvent, hr, hrd, Timer.update, hprev, hpin, Button.doPress]

/-- Debouncing, window over, pressed to released: Release. -/
theorem Button.update_release (w : Nat) (b : Button) (now : Nat) (pin : ButtonPinStatus)
    (hr : b.debounceTimer.running = true) (hrd : b.debounceTimer.ready w now = true)
    (hwf : b.upState ≠ b.downState)
    (hprev : b.prevState = b.downState) (hpin : pin = b.upState) :
    b.update w now pin =
      some ⟨{ b with debounceTimer := b.debounceTimer.execute w, prevState := pin,
                     lastRelease := now, longPressTriggered := false },
        ButtonEvent.Release, b.release.toList⟩ := by
  simp [Button.update, Button.detectEvent, hr, hrd, Timer.update, hprev, hpin, Button.doRelease,
    hwf, Ne.symm hwf]

/-- Debouncing, window over, the sample is the committed level again: noise. -/
theorem Button.update_noise (w : Nat) (b : Button) (now : Nat) (pin : ButtonPinStatus)
    (hr : b.debounceTimer.running = true) (hrd : b.debounceTimer.ready w now = true)
    (hwf : b.upState ≠ b.downState) (hpin : pin = b.prevState) :
    b.update w now pin =
      some ⟨{ b with debounceTimer := b.debounceTimer.execute w }, ButtonEvent.None, []⟩ := by
  subst hpin
  by_cases h1 : b.prevState = b.upState
  · simp [Button.update, Button.detectEvent, hr, hrd, Timer.update, h1, hwf, Ne.symm hwf]
  · by_cases h2 : b.prevState = b.downState
    · simp [Button.update, Button.detectEvent, hr, hrd, Timer.update, h2, hwf, Ne.symm hwf]
    · simp [Button.update, Button.detectEvent, hr, hrd, Timer.update, h1, h2]

/-! ## The polling loop -/

theorem Button.updates_cons (w : Nat) (b : Button) (now : Nat) (pin : ButtonPinStatus)
    (rest : List (Nat × ButtonPinStatus)) (o : Outcome) (h : b.update w now pin = some o) :
    Button.updates w b ((now, pin) :: rest) =
      (Button.updates w o.button rest).map (fun r => (r.1, o.event :: r.2)) := by
  simp only [Button.updates, h]
  cases Button.updates w o.button rest <;> rfl

theorem Button.updates_append (w : Nat) (xs ys : List (Nat × ButtonPinStatus)) (b b1 b2 : Button)
    (e1 e2 : List ButtonEvent) (h1 : Button.updates w b xs = some (b1, e1))
    (h2 : Button.updates w b1 ys = some (b2, e2)) :
    Button.updates w b (xs ++ ys) = some (b2, e1 ++ e2) := by
  induction xs generalizing b e1 with
  | nil =>
    simp only [Button.updates, Option.some.injEq, Prod.mk.injEq] at h1
    obtain ⟨rfl, rfl⟩ := h1
    simpa using h2
  | cons x xs ih =>
    obtain ⟨now, pin⟩ := x
    simp only [Button.updates, List.cons_append] at h1 ⊢
    cases hu : b.update w now pin with
    | none => simp [hu] at h1
    | some o =>
      simp only [hu] at h1 ⊢
      cases hr : Button.updates w o.button xs with
      | none => simp [hr] at h1
      | some r =>
        obtain ⟨b3, e3⟩ := r
        simp only [hr, Option.some.injEq, Prod.mk.injEq] at h1
        obtain ⟨rfl, rfl⟩ := h1
        simp [ih o.button e3 hr]

/-- While the button is held and no long press is due, every poll that reads the pressed
level returns Hold and leaves the Button as it is. -/
theorem Button.updates_hold (w : Nat) (b : Button) (polls : List Nat)
    (hr : b.debounceTimer.running = false) (hprev : b.prevState = b.downState)
    (hc : ∀ t ∈ polls, b.longPressMs = 0 ∨ b.longPressTriggered = true
      ∨ wsub w t b.lastPress ≤ b.longPressMs) :
    Button.updates w b (polls.map (fun t => (t, b.downState)))
      = some (b, polls.map (fun _ => ButtonEvent.Hold)) := by
  induction polls with
  | nil => rfl
  | cons t rest ih =>
    have h := Button.update_hold w b t b.downState hr hprev rfl (hc t (List.mem_cons_self _ _))
    rw [List.map_cons, Button.updates_cons w b t b.downState _ _ h]
    simp only
    rw [ih (fun t ht => hc t (List.mem_cons_of_mem _ ht))]
    rfl

/-- C1, the worked scenario: a Button built with activeLevel High and longPressMs 2000,
polled at (0,Low), (10,High), (16,High), then at any clock values in 20..2015 reading
High, then at (2017,High), (2020,High), (2030,Low), (2036,Low), returns None, None, Press,
Hold for each of the 20..2015 polls, LongPress, Hold, None, Release; lastPress is 16 after
the Press, lastRelease is 2036 after the Release and longPressTriggered is false then. -/
theorem c1_worked_scenario (w : Nat) (hw : 2036 < 2 ^ w) (holds : List Nat)
    (hholds : ∀ t ∈ holds, 20 ≤ t ∧ t ≤ 2015) :
    ∃ bPress bEnd : Button,
      Button.updates w (Button.new ButtonPinStatus.High 2000)
          [(0, ButtonPinStatus.Low), (10, ButtonPinStatus.High), (16, ButtonPinStatus.High)]
        = some (bPress, [ButtonEvent.None, ButtonEvent.None, ButtonEvent.Press])
      ∧ bPress.lastPress = 16
      ∧ Button.updates w (Button.new ButtonPinStatus.High 2000)
          ([(0, ButtonPinStatus.Low), (10, ButtonPinStatus.High), (16, ButtonPinStatus.High)]
            ++ holds.map (fun t => (t, ButtonPinStatus.High))
            ++ [(2017, ButtonPinStatus.High), (2020, ButtonPinStatus.High),
                (2030, ButtonPinStatus.Low), (2036, ButtonPinStatus.Low)])
        = some (bEnd,
            [ButtonEvent.None, ButtonEvent.None, ButtonEvent.Press]
              ++ holds.map (fun _ => ButtonEvent.Hold)
              ++ [ButtonEvent.LongPress, ButtonEvent.Hold, ButtonEvent.None,
                  ButtonEvent.Release])
      ∧ bEnd.lastRelease = 2036
      ∧ bEnd.longPressTriggered = false := by
  have e0 : ∀ n, n ≤ 2036 → n % 2 ^ w = n := fun n hn => Nat.mod_eq_of_lt (by omega)
  have es : ∀ a b, b ≤ a → a ≤ 2036 → wsub w a b = a - b :=
    fun a b hba ha => wsub_eq w a b hba (by omega)
  have hpre : Button.updates w (Button.new ButtonPinStatus.High 2000)
      [(0, ButtonPinStatus.Low), (10, ButtonPinStatus.High), (16, ButtonPinStatus.High)]
      = some (⟨⟨5, 0, 10, 1, 0, false⟩, none, none, none, none, 16, 0, 2000, false,
          ButtonPinStatus.Low, ButtonPinStatus.High, ButtonPinStatus.High⟩,
        [ButtonEvent.None, ButtonEvent.None, ButtonEvent.Press]) := by
    simp [Button.updates, Button.update, Button.detectEvent, Button.new, Timer.new,
      Timer.restartDelay_eq, Timer.update, Timer.ready, Timer.execute, Timer.endless,
      Timer.stop, Button.doPress, wadd, DebounceDelayDuration, Duration.Never,
      Duration.Endless, e0, es]
  have hmid : Button.updates w (⟨⟨5, 0, 10, 1, 0, false⟩, none, none, none, none, 16, 0, 2000,
        false, ButtonPinStatus.Low, ButtonPinStatus.High, ButtonPinStatus.High⟩ : Button)
      (holds.map (fun t => (t, ButtonPinStatus.High)))
      = some (⟨⟨5, 0, 10, 1, 0, false⟩, none, none, none, none, 16, 0, 2000, false,
          ButtonPinStatus.Low, ButtonPinStatus.High, ButtonPinStatus.High⟩,
        holds.map (fun _ => ButtonEvent.Hold)) := by
    refine Button.updates_hold w _ holds rfl rfl ?_
    intro t ht
    have h := hholds t ht
    right; right
    show wsub w t 16 ≤ 2000
    rw [es t 16 (by omega) (by omega)]
    omega
  have hpost : Button.updates w (⟨⟨5, 0, 10, 1, 0, false⟩, none, none, none, none, 16, 0, 2000,
        false, ButtonPinStatus.Low, ButtonPinStatus.High, ButtonPinStatus.High⟩ : Button)
      [(2017, ButtonPinStatus.High), (2020, ButtonPinStatus.High),
        (2030, ButtonPinStatus.Low), (2036, ButtonPinStatus.Low)]
      = some (⟨⟨5, 0, 2030, 1, 0, false⟩, none, none, none, none, 16, 2036, 2000, false,
          ButtonPinStatus.Low, ButtonPinStatus.High, ButtonPinStatus.Low⟩,
        [ButtonEvent.LongPress, ButtonEvent.Hold, ButtonEvent.None, ButtonEvent.Release]) := by
    simp [Button.updates, Button.update, Button.detectEvent,
      Timer.restartDelay_eq, Timer.update, Timer.ready, Timer.execute, Timer.endless,
      Timer.stop, Button.doRelease, Button.doHold, Button.doLongPress, wadd,
      DebounceDelayDuration, Duration.Endless, e0, es]
  exact ⟨_, _, hpre, rfl,
    Button.updates_append w _ _ _ _ _ _ _ (Button.updates_append w _ _ _ _ _ _ _ hpre hmid) hpost,
    rfl, rfl⟩

/-- The worked scenario of C1 on a 32-bit clock with polls at 20, 1000 and 2015 during the
hold. -/
theorem c1_worked_scenario_witness :
    (2036 < 2 ^ 32 ∧ ∀ t ∈ [20, 1000, 2015], 20 ≤ t ∧ t ≤ 2015) ∧
    ∃ bPress bEnd : Button,
      Button.updates 32 (Button.new ButtonPinStatus.High 2000)
          [(0, ButtonPinStatus.Low), (10, ButtonPinStatus.High), (16, ButtonPinStatus.High)]
        = some (bPress, [ButtonEvent.None, ButtonEvent.None, ButtonEvent.Press])
      ∧ bPress.lastPress = 16
      ∧ Button.updates 32 (Button.new ButtonPinStatus.High 2000)
          ([(0, ButtonPinStatus.Low), (10, ButtonPinStatus.High), (16, ButtonPinStatus.High)]
            ++ [20, 1000, 2015].map (fun t => (t, ButtonPinStatus.High))
            ++ [(2017, ButtonPinStatus.High), (2020, ButtonPinStatus.High),
                (2030, ButtonPinStatus.Low), (2036, ButtonPinStatus.Low)])
        = some (bEnd,
            [ButtonEvent.None, ButtonEvent.None, ButtonEvent.Press]
              ++ [20, 1000, 2015].map (fun _ => ButtonEvent.Hold)
              ++ [ButtonEvent.LongPress, ButtonEvent.Hold, ButtonEvent.None,
                  ButtonEvent.Release])
      ∧ bEnd.lastRelease = 2036
      ∧ bEnd.longPressTriggered = false :=
  ⟨⟨by decide, by decide⟩, c1_worked_scenario 32 (by decide) [20, 1000, 2015] (by decide)⟩

/-- A running debounce timer fires at the first poll made 5 ticks or more after it was
armed. -/
theorem Timer.Debouncing.ready_after_delay (w : Nat) (hw : 5 < 2 ^ w) (t : Timer) (h : t.Debouncing)
    (now : Nat) (hle : t.tick ≤ now) (hlt : now - t.tick < 2 ^ w) :
    t.ready w now = decide (t.tick + 5 ≤ now) :=
  Timer.ready_debounce w hw t h.2.1 h.1 now hle hlt

/-- Firing stops the debounce timer. -/
theorem Timer.Debouncing.execute_running (w : Nat) (t : Timer) (h : t.Debouncing) :
    (t.execute w).running = false := by
  rw [Timer.execute_once w t h.2.2.1 h.2.2.2]

/-- One poll of a Button whose committed level is disturbed only inside the interval
`[a, c]`, shorter than the debounce delay: no Press, no Release, the committed level stays,
and a poll made 5 ticks after the interval finds or leaves the timer stopped. -/
theorem Button.update_glitch (w : Nat) (hw : 5 < 2 ^ w) (a c : Nat) (hshort : c < a + 5)
    (b : Button) (t : Nat) (x : ButtonPinStatus)
    (hwf : b.upState ≠ b.downState)
    (hinv : b.debounceTimer.running = true →
      b.debounceTimer.Debouncing ∧ a ≤ b.debounceTimer.tick ∧ b.debounceTimer.tick ≤ c
        ∧ b.debounceTimer.tick ≤ t)
    (ht : t < 2 ^ w)
    (hx : x ≠ b.prevState → a ≤ t ∧ t ≤ c) :
    ∃ o, b.update w t x = some o
      ∧ o.event ≠ ButtonEvent.Press ∧ o.event ≠ ButtonEvent.Release
      ∧ o.button.upState = b.upState ∧ o.button.downState = b.downState
      ∧ o.button.prevState = b.prevState
      ∧ (o.button.debounceTimer.running = true →
          o.button.debounceTimer.Debouncing ∧ a ≤ o.button.debounceTimer.tick
            ∧ o.button.debounceTimer.tick ≤ c ∧ o.button.debounceTimer.tick ≤ t)
      ∧ (c + 5 ≤ t → o.button.debounceTimer.running = false) := by
  cases hr : b.debounceTimer.running with
  | false =>
    by_cases hpx : b.prevState = x
    · by_cases hd : x = b.downState
      · by_cases hlp : b.longPressMs ≠ 0 ∧ b.longPressTriggered = false
            ∧ b.longPressMs < wsub w t b.lastPress
        · refine ⟨_, Button.update_longPress w b t x hr hpx hd hlp.1 hlp.2.1 hlp.2.2, ?_⟩
          simp [hr]
        · refine ⟨_, Button.update_hold w b t x hr hpx hd ?_, ?_⟩
          · by_cases h1 : b.longPressMs = 0
            · exact Or.inl h1
            · by_cases h2 : b.longPressTriggered = true
              · exact Or.inr (Or.inl h2)
              · refine Or.inr (Or.inr (Nat.not_lt.mp fun h3 => hlp ⟨h1, ?_, h3⟩))
                simpa using h2
          · simp [hr]
      · refine ⟨_, Button.update_idle w b t x hr hpx hd, ?_⟩
        simp [hr]
    · refine ⟨_, Button.update_arm w b t x hr hpx, ?_⟩
      have h := hx (fun h => hpx h.symm)
      refine ⟨by simp, by simp, rfl, rfl, rfl, ?_, ?_⟩
      · intro _
        exact ⟨⟨rfl, rfl, rfl, rfl⟩, h.1, h.2, le_refl _⟩
      · intro h5
        omega
  | true =>
    obtain ⟨hdeb, hat, htc, htt⟩ := hinv hr
    have hready := Timer.Debouncing.ready_after_delay w hw _ hdeb t htt (by omega)
    by_cases hfire : b.debounceTimer.tick + 5 ≤ t
    · have hxs : x = b.prevState := by
        by_contra hne
        have := hx hne
        omega
      rw [decide_eq_true hfire] at hready
      refine ⟨_, Button.update_noise w b t x hr hready hwf hxs, ?_⟩
      simp [Timer.Debouncing.execute_running w _ hdeb]
    · rw [decide_eq_false hfire] at hready
      refine ⟨_, Button.update_wait w b t x hr hready, ?_⟩
      refine ⟨by simp, by simp, rfl, rfl, rfl, fun h => hinv h, ?_⟩
      intro h5
      omega

/-- The polling loop under the hypotheses of `Button.update_glitch`, from a state where the
debounce timer may be running. -/
theorem Button.updates_glitch (w : Nat) (hw : 5 < 2 ^ w) (a c : Nat) (hshort : c < a + 5)
    (s : ButtonPinStatus) (polls : List (Nat × ButtonPinStatus)) :
    ∀ b : Button, b.upState ≠ b.downState → b.prevState = s →
      (b.debounceTimer.running = true →
        b.debounceTimer.Debouncing ∧ a ≤ b.debounceTimer.tick ∧ b.debounceTimer.tick ≤ c
          ∧ ∀ p ∈ polls, b.debounceTimer.tick ≤ p.1) →
      polls.Pairwise (fun p q => p.1 ≤ q.1) →
      (∀ p ∈ polls, p.1 < 2 ^ w) →
      (∀ p ∈ polls, p.2 ≠ s → a ≤ p.1 ∧ p.1 ≤ c) →
      ∃ b1 evs, Button.updates w b polls = some (b1, evs)
        ∧ ButtonEvent.Press ∉ evs ∧ ButtonEvent.Release ∉ evs
        ∧ b1.prevState = s
        ∧ ((∃ p ∈ polls, c + 5 ≤ p.1) → b1.debounceTimer.running = false) := by
  induction polls with
  | nil =>
    intro b _ hs _ _ _ _
    exact ⟨b, [], rfl, by simp, by simp, hs, by simp⟩
  | cons p rest ih =>
    intro b hwf hs hinv hsorted hrange hglitch
    obtain ⟨t, x⟩ := p
    rw [List.pairwise_cons] at hsorted
    obtain ⟨o, hupd, hnp, hnr, hup, hdown, hprev, hinv1, hstop⟩ :=
      Button.update_glitch w hw a c hshort b t x hwf
        (fun h => by
          obtain ⟨h1, h2, h3, h4⟩ := hinv h
          exact ⟨h1, h2, h3, h4 (t, x) (List.mem_cons_self _ _)⟩)
        (hrange (t, x) (List.mem_cons_self _ _))
        (fun hne => hglitch (t, x) (List.mem_cons_self _ _) (by rw [← hs]; exact hne))
    obtain ⟨b1, evs, hrest, hP, hR, hs1, hfin⟩ :=
      ih o.button (by rw [hup, hdown]; exact hwf) (by rw [hprev]; exact hs)
        (fun h => by
          obtain ⟨h1, h2, h3, h4⟩ := hinv1 h
          exact ⟨h1, h2, h3, fun p hp => le_trans h4 (hsorted.1 p hp)⟩)
        hsorted.2
        (fun p hp => hrange p (List.mem_cons_of_mem _ hp))
        (fun p hp => hglitch p (List.mem_cons_of_mem _ hp))
    refine ⟨b1, o.event :: evs, ?_, ?_, ?_, hs1, ?_⟩
    · rw [Button.updates_cons w b t x rest o hupd, hrest]
      rfl
    · simp only [List.mem_cons, not_or]
      exact ⟨fun h => hnp h.symm, hP⟩
    · simp only [List.mem_cons, not_or]
      exact ⟨fun h => hnr h.symm, hR⟩
    · rintro ⟨q, hq, hq5⟩
      cases rest with
      | nil =>
        simp only [List.mem_singleton] at hq
        subst hq
        simp only [Button.updates, Option.some.injEq, Prod.mk.injEq] at hrest
        rw [← hrest.1]
        exact hstop hq5
      | cons r rest1 =>
        apply hfin
        rcases List.mem_cons.mp hq with rfl | hq1
        · exact ⟨r, List.mem_cons_self _ _, le_trans hq5 (hsorted.1 r (List.mem_cons_self _ _))⟩
        · exact ⟨q, hq1, hq5⟩

/-- C2, debounce suppression: from a stable state (debounce timer not running, committed
level `prevState`), over polls with non-decreasing clock values in which the pin reads a
level different from the committed one only inside an interval `[a, c]` shorter than the
debounce delay of 5 ticks, no `update()` returns Press or Release, the committed level is
the same at the end, and the debounce timer is stopped once a poll has been made 5 ticks
after the interval. -/
theorem c2_debounce_suppression (w : Nat) (hw : 5 < 2 ^ w) (b : Button)
    (hwf : b.upState ≠ b.downState) (hstable : b.debounceTimer.running = false)
    (polls : List (Nat × ButtonPinStatus))
    (hsorted : polls.Pairwise (fun p q => p.1 ≤ q.1))
    (hrange : ∀ p ∈ polls, p.1 < 2 ^ w)
    (a c : Nat) (hshort : c < a + 5)
    (hglitch : ∀ p ∈ polls, p.2 ≠ b.prevState → a ≤ p.1 ∧ p.1 ≤ c) :
    ∃ b1 evs, Button.updates w b polls = some (b1, evs)
      ∧ ButtonEvent.Press ∉ evs ∧ ButtonEvent.Release ∉ evs
      ∧ b1.prevState = b.prevState
      ∧ ((∃ p ∈ polls, c + 5 ≤ p.1) → b1.debounceTimer.running = false) :=
  Button.updates_glitch w hw a c hshort b.prevState polls b hwf rfl
    (fun h => by rw [hstable] at h; exact absurd h (by decide)) hsorted hrange hglitch

/-- C2 on a 32-bit clock: a released active-high Button whose pin reads High at 10 and 12
only, polled until 20. -/
theorem c2_debounce_suppression_witness :
    ∃ b1 evs, Button.updates 32 (Button.new ButtonPinStatus.High 2000)
        [(0, ButtonPinStatus.Low), (10, ButtonPinStatus.High), (12, ButtonPinStatus.High),
          (13, ButtonPinStatus.Low), (16, ButtonPinStatus.Low), (20, ButtonPinStatus.Low)]
        = some (b1, evs)
      ∧ ButtonEvent.Press ∉ evs ∧ ButtonEvent.Release ∉ evs
      ∧ b1.prevState = (Button.new ButtonPinStatus.High 2000).prevState
      ∧ ((∃ p ∈ [(0, ButtonPinStatus.Low), (10, ButtonPinStatus.High),
            (12, ButtonPinStatus.High), (13, ButtonPinStatus.Low), (16, ButtonPinStatus.Low),
            (20, ButtonPinStatus.Low)], 12 + 5 ≤ p.1) → b1.debounceTimer.running = false) :=
  c2_debounce_suppression 32 (by decide) (Button.new ButtonPinStatus.High 2000)
    (by decide) (by decide) _ (by decide) (by decide) 10 12 (by decide) (by decide)

/-- Stable and released: polls that read the committed level return None and change
nothing. -/
theorem Button.updates_idle (w : Nat) (b : Button) (ts : List Nat)
    (hr : b.debounceTimer.running = false) (hne : b.prevState ≠ b.downState) :
    Button.updates w b (ts.map (fun t => (t, b.prevState)))
      = some (b, ts.map (fun _ => ButtonEvent.None)) := by
  induction ts with
  | nil => rfl
  | cons t rest ih =>
    rw [List.map_cons, Button.updates_cons w b t b.prevState _ _
      (Button.update_idle w b t b.prevState hr rfl hne)]
    simp only
    rw [ih]
    rfl

/-- Debouncing: the polls made before the window is over return None and change nothing.
The list of polls is split at the first poll made 5 ticks or more after the timer was
armed. -/
theorem Button.updates_wait (w : Nat) (hw : 5 < 2 ^ w) (b : Button) (x : ButtonPinStatus)
    (ts : List Nat)
    (hr : b.debounceTimer.running = true) (hdeb : b.debounceTimer.Debouncing)
    (hts : ∀ t ∈ ts, b.debounceTimer.tick ≤ t ∧ t < 2 ^ w)
    (hex : ∃ t ∈ ts, b.debounceTimer.tick + 5 ≤ t) :
    ∃ pre q post, ts = pre ++ q :: post
      ∧ Button.updates w b (pre.map (fun t => (t, x)))
          = some (b, pre.map (fun _ => ButtonEvent.None))
      ∧ b.debounceTimer.ready w q = true := by
  induction ts with
  | nil => simp at hex
  | cons t rest ih =>
    have ht := hts t (List.mem_cons_self _ _)
    have hready := Timer.Debouncing.ready_after_delay w hw _ hdeb t ht.1 (by omega)
    by_cases hfire : b.debounceTimer.tick + 5 ≤ t
    · rw [decide_eq_true hfire] at hready
      exact ⟨[], t, rest, rfl, rfl, hready⟩
    · rw [decide_eq_false hfire] at hready
      have hex1 : ∃ t ∈ rest, b.debounceTimer.tick + 5 ≤ t := by
        obtain ⟨q, hq, hq5⟩ := hex
        rcases List.mem_cons.mp hq with rfl | hq1
        · exact absurd hq5 hfire
        · exact ⟨q, hq1, hq5⟩
      obtain ⟨pre, q, post, hsplit, hrun, hq⟩ :=
        ih (fun t ht => hts t (List.mem_cons_of_mem _ ht)) hex1
      refine ⟨t :: pre, q, post, by rw [hsplit]; rfl, ?_, hq⟩
      rw [List.map_cons, Button.updates_cons w b t x _ _ (Button.update_wait w b t x hr hready)]
      simp only
      rw [hrun]
      rfl

/-- A whole debounce window: from a stable state, polls that read a level `x` different
from the committed one arm the timer at the first poll `t0` and return None until the
first poll `q` made 5 ticks or more after `t0`, at which the timer is ready. -/
theorem Button.updates_debounce (w : Nat) (hw : 5 < 2 ^ w) (b : Button) (x : ButtonPinStatus)
    (t0 : Nat) (ts : List Nat)
    (hr : b.debounceTimer.running = false) (hne : b.prevState ≠ x)
    (hts : ∀ t ∈ ts, t0 ≤ t ∧ t < 2 ^ w)
    (hex : ∃ t ∈ ts, t0 + 5 ≤ t) :
    ∃ pre q post, ts = pre ++ q :: post
      ∧ Button.updates w b ((t0 :: pre).map (fun t => (t, x)))
          = some ({ b with debounceTimer := ⟨DebounceDelayDuration, 0, t0, 1, 1, true⟩ },
              (t0 :: pre).map (fun _ => ButtonEvent.None))
      ∧ Timer.ready w ⟨DebounceDelayDuration, 0, t0, 1, 1, true⟩ q = true := by
  obtain ⟨pre, q, post, hsplit, hrun, hq⟩ :=
    Button.updates_wait w hw
      { b with debounceTimer := ⟨DebounceDelayDuration, 0, t0, 1, 1, true⟩ } x ts rfl
      ⟨rfl, rfl, rfl, rfl⟩ hts hex
  refine ⟨pre, q, post, hsplit, ?_, hq⟩
  rw [List.map_cons, Button.updates_cons w b t0 x _ _ (Button.update_arm w b t0 x hr hne)]
  simp only
  rw [hrun]
  rfl

/-- The hold phase: from a stable pressed state, polls that read the pressed level return
Hold or LongPress, LongPress at most once and not at all when the flag is already set. -/
theorem Button.updates_held (w : Nat) (ts : List Nat) :
    ∀ b : Button, b.debounceTimer.running = false → b.prevState = b.downState →
      ∃ b1 evs, Button.updates w b (ts.map (fun t => (t, b.downState))) = some (b1, evs)
        ∧ (∀ e ∈ evs, e = ButtonEvent.Hold ∨ e = ButtonEvent.LongPress)
        ∧ evs.count ButtonEvent.LongPress ≤ (if b.longPressTriggered then 0 else 1)
        ∧ b1.debounceTimer.running = false ∧ b1.prevState = b.downState
        ∧ b1.upState = b.upState ∧ b1.downState = b.downState := by
  induction ts with
  | nil =>
    intro b hr hprev
    exact ⟨b, [], rfl, by simp, by simp, hr, hprev, rfl, rfl⟩
  | cons t rest ih =>
    intro b hr hprev
    by_cases hlp : b.longPressMs ≠ 0 ∧ b.longPressTriggered = false
        ∧ b.longPressMs < wsub w t b.lastPress
    · have hupd := Button.update_longPress w b t b.downState hr hprev rfl hlp.1 hlp.2.1 hlp.2.2
      obtain ⟨b1, evs, hrun, hall, hcount, h1, h2, h3, h4⟩ :=
        ih { b with longPressTriggered := true } hr hprev
      refine ⟨b1, ButtonEvent.LongPress :: evs, ?_, ?_, ?_, h1, h2, h3, h4⟩
      · rw [List.map_cons, Button.updates_cons w b t b.downState _ _ hupd]
        simp only
        rw [hrun]
        rfl
      · intro e he
        rcases List.mem_cons.mp he with rfl | he1
        · exact Or.inr rfl
        · exact hall e he1
      · simp only [if_true] at hcount
        simp [hlp.2.1]
        omega
    · have hupd := Button.update_hold w b t b.downState hr hprev rfl (by
        by_cases h1 : b.longPressMs = 0
        · exact Or.inl h1
        · by_cases h2 : b.longPressTriggered = true
          · exact Or.inr (Or.inl h2)
          · refine Or.inr (Or.inr (Nat.not_lt.mp fun h3 => hlp ⟨h1, ?_, h3⟩))
            simpa using h2)
      obtain ⟨b1, evs, hrun, hall, hcount, h1, h2, h3, h4⟩ := ih b hr hprev
      refine ⟨b1, ButtonEvent.Hold :: evs, ?_, ?_, ?_, h1, h2, h3, h4⟩
      · rw [List.map_cons, Button.updates_cons w b t b.downState _ _ hupd]
        simp only
        rw [hrun]
        rfl
      · intro e he
        rcases List.mem_cons.mp he with rfl | he1
        · exact Or.inl rfl
        · exact hall e he1
      · rw [List.count_cons_of_ne (by decide)]
        exact hcount

theorem Button.updates_single (w : Nat) (b : Button) (now : Nat) (pin : ButtonPinStatus)
    (o : Outcome) (h : b.update w now pin = some o) :
    Button.updates w b [(now, pin)] = some (o.button, [o.event]) := by
  rw [Button.updates_cons w b now pin [] o h]
  rfl

theorem Button.new_running (activeLevel : ButtonPinStatus) (longPressMs : Nat) :
    (Button.new activeLevel longPressMs).debounceTimer.running = false := by
  cases activeLevel <;> rfl

theorem Button.new_prevState (activeLevel : ButtonPinStatus) (longPressMs : Nat) :
    (Button.new activeLevel longPressMs).prevState
      = (Button.new activeLevel longPressMs).upState := by
  cases activeLevel <;> rfl

theorem Button.new_levels (activeLevel : ButtonPinStatus) (longPressMs : Nat) :
    (Button.new activeLevel longPressMs).upState
      ≠ (Button.new activeLevel longPressMs).downState := by
  cases activeLevel <;> simp [Button.new]

theorem filter_map_none (ts : List Nat) :
    (ts.map (fun _ => ButtonEvent.None)).filter (fun e => decide (e ≠ ButtonEvent.None)) = [] := by
  induction ts with
  | nil => rfl
  | cons t rest ih => simp

theorem filter_holds (holds : List ButtonEvent)
    (h : ∀ e ∈ holds, e = ButtonEvent.Hold ∨ e = ButtonEvent.LongPress) :
    holds.filter (fun e => decide (e ≠ ButtonEvent.None)) = holds := by
  rw [List.filter_eq_self]
  intro e he
  rcases h e he with rfl | rfl <;> decide

/-- Press/Release pairing from any stable released state. -/
theorem Button.updates_pairing (w : Nat) (hw : 5 < 2 ^ w) (b0 : Button)
    (hr0 : b0.debounceTimer.running = false) (hprev0 : b0.prevState = b0.upState)
    (hwf : b0.upState ≠ b0.downState)
    (ups : List Nat) (d0 : Nat) (downs : List Nat) (u0 : Nat) (ups2 : List Nat)
    (hd : ∀ t ∈ downs, d0 ≤ t ∧ t < 2 ^ w) (hu : ∀ t ∈ ups2, u0 ≤ t ∧ t < 2 ^ w)
    (hdown : ∃ t ∈ downs, d0 + 5 ≤ t) (hup : ∃ t ∈ ups2, u0 + 5 ≤ t) :
    ∃ b1 evs holds,
      Button.updates w b0
          (ups.map (fun t => (t, b0.upState))
            ++ (d0 :: downs).map (fun t => (t, b0.downState))
            ++ (u0 :: ups2).map (fun t => (t, b0.upState)))
        = some (b1, evs)
      ∧ evs.filter (fun e => decide (e ≠ ButtonEvent.None))
          = ButtonEvent.Press :: holds ++ [ButtonEvent.Release]
      ∧ (∀ e ∈ holds, e = ButtonEvent.Hold ∨ e = ButtonEvent.LongPress)
      ∧ holds.count ButtonEvent.LongPress ≤ 1 := by
  -- released, stable
  have hA := Button.updates_idle w b0 ups hr0 (by rw [hprev0]; exact hwf)
  rw [hprev0] at hA
  -- debounce window of the press
  obtain ⟨pre, q, post, hsplit, hB, hq⟩ :=
    Button.updates_debounce w hw b0 b0.downState d0 downs hr0 (by rw [hprev0]; exact hwf) hd hdown
  have hC := Button.updates_single w _ q b0.downState _
    (Button.update_press w { b0 with debounceTimer := ⟨DebounceDelayDuration, 0, d0, 1, 1, true⟩ }
      q b0.downState rfl hq hprev0 rfl)
  -- hold
  obtain ⟨b3, holds, hD, hall, hcount, hr3, hprev3, hup3, hdown3⟩ :=
    Button.updates_held w post
      { b0 with
        debounceTimer := Timer.execute w ⟨DebounceDelayDuration, 0, d0, 1, 1, true⟩
        prevState := b0.downState, lastPress := q, longPressTriggered := false }
      (Timer.Debouncing.execute_running w _ ⟨rfl, rfl, rfl, rfl⟩) rfl
  simp only at hD hprev3 hup3 hdown3 hcount
  -- debounce window of the release
  obtain ⟨pre2, q2, post2, hsplit2, hE, hq2⟩ :=
    Button.updates_debounce w hw b3 b0.upState u0 ups2 hr3
      (by rw [hprev3]; exact Ne.symm hwf) hu hup
  have hF := Button.updates_single w _ q2 b0.upState _
    (Button.update_release w
      { b3 with debounceTimer := ⟨DebounceDelayDuration, 0, u0, 1, 1, true⟩ }
      q2 b0.upState rfl hq2 (by simp only [hup3, hdown3]; exact hwf)
      (by simp only [hprev3, hdown3]) (by simp only [hup3]))
  -- released again
  have hG := Button.updates_idle w
    { b3 with
      debounceTimer := Timer.execute w ⟨DebounceDelayDuration, 0, u0, 1, 1, true⟩
      prevState := b0.upState, lastRelease := q2, longPressTriggered := false }
    post2 (Timer.Debouncing.execute_running w _ ⟨rfl, rfl, rfl, rfl⟩)
    (by simp only [hdown3]; exact hwf)
  simp only at hG
  have hall1 := Button.updates_append w _ _ _ _ _ _ _ hA
    (Button.updates_append w _ _ _ _ _ _ _ hB
      (Button.updates_append w _ _ _ _ _ _ _ hC
        (Button.updates_append w _ _ _ _ _ _ _ hD
          (Button.updates_append w _ _ _ _ _ _ _ hE
            (Button.updates_append w _ _ _ _ _ _ _ hF hG)))))
  have hlist : ups.map (fun t => (t, b0.upState))
        ++ (d0 :: downs).map (fun t => (t, b0.downState))
        ++ (u0 :: ups2).map (fun t => (t, b0.upState))
      = ups.map (fun t => (t, b0.upState))
        ++ ((d0 :: pre).map (fun t => (t, b0.downState))
          ++ ([(q, b0.downState)]
            ++ (post.map (fun t => (t, b0.downState))
              ++ ((u0 :: pre2).map (fun t => (t, b0.upState))
                ++ ([(q2, b0.upState)] ++ post2.map (fun t => (t, b0.upState))))))) := by
    rw [hsplit, hsplit2]
    simp
  rw [hlist]
  refine ⟨_, _, holds, hall1, ?_, hall, hcount⟩
  simp only [List.filter_append, filter_map_none, filter_holds holds hall]
  simp

/-- C3, Press/Release pairing: a freshly constructed Button (either polarity, any long-press
threshold) polled with non-decreasing clock values while the pin reads Up (polls `ups`),
then Down (first poll `d0`, then `downs`), then Up (first poll `u0`, then `ups2`), where
the Down phase and the final Up phase each contain a poll made at least 5 ticks after the
first poll of the phase, returns as its non-None events exactly one Press, then events
that are Hold or LongPress with at most one LongPress, then exactly one Release. -/
theorem c3_press_release_pairing (w : Nat) (hw : 5 < 2 ^ w)
    (activeLevel : ButtonPinStatus) (longPressMs : Nat)
    (ups : List Nat) (d0 : Nat) (downs : List Nat) (u0 : Nat) (ups2 : List Nat)
    (hsorted : (ups ++ ((d0 :: downs) ++ (u0 :: ups2))).Pairwise (fun s t => s ≤ t))
    (hrange : ∀ t ∈ ups ++ ((d0 :: downs) ++ (u0 :: ups2)), t < 2 ^ w)
    (hdown : ∃ t ∈ downs, d0 + 5 ≤ t) (hup : ∃ t ∈ ups2, u0 + 5 ≤ t) :
    ∃ b1 evs holds,
      Button.updates w (Button.new activeLevel longPressMs)
          (ups.map (fun t => (t, (Button.new activeLevel longPressMs).upState))
            ++ (d0 :: downs).map (fun t => (t, (Button.new activeLevel longPressMs).downState))
            ++ (u0 :: ups2).map (fun t => (t, (Button.new activeLevel longPressMs).upState)))
        = some (b1, evs)
      ∧ evs.filter (fun e => decide (e ≠ ButtonEvent.None))
          = ButtonEvent.Press :: holds ++ [ButtonEvent.Release]
      ∧ (∀ e ∈ holds, e = ButtonEvent.Hold ∨ e = ButtonEvent.LongPress)
      ∧ holds.count ButtonEvent.LongPress ≤ 1 := by
  rw [List.pairwise_append, List.pairwise_append, List.pairwise_cons, List.pairwise_cons]
    at hsorted
  obtain ⟨_, ⟨⟨hd0, _⟩, ⟨hu0, _⟩, _⟩, _⟩ := hsorted
  refine Button.updates_pairing w hw _ (Button.new_running _ _) (Button.new_prevState _ _)
    (Button.new_levels _ _) ups d0 downs u0 ups2 ?_ ?_ hdown hup
  · intro t ht
    exact ⟨hd0 t ht, hrange t (by simp [ht])⟩
  · intro t ht
    exact ⟨hu0 t ht, hrange t (by simp [ht])⟩

/-- C3 on a 32-bit clock: an active-high Button released at 0 and 3, pressed from 10 to 20,
released from 30 to 40. -/
theorem c3_press_release_pairing_witness :
    ∃ b1 evs holds,
      Button.updates 32 (Button.new ButtonPinStatus.High 2000)
          ([0, 3].map (fun t => (t, (Button.new ButtonPinStatus.High 2000).upState))
            ++ (10 :: [12, 16, 20]).map
                (fun t => (t, (Button.new ButtonPinStatus.High 2000).downState))
            ++ (30 :: [33, 36, 40]).map
                (fun t => (t, (Button.new ButtonPinStatus.High 2000).upState)))
        = some (b1, evs)
      ∧ evs.filter (fun e => decide (e ≠ ButtonEvent.None))
          = ButtonEvent.Press :: holds ++ [ButtonEvent.Release]
      ∧ (∀ e ∈ holds, e = ButtonEvent.Hold ∨ e = ButtonEvent.LongPress)
      ∧ holds.count ButtonEvent.LongPress ≤ 1 :=
  c3_press_release_pairing 32 (by decide) ButtonPinStatus.High 2000 [0, 3] 10 [12, 16, 20] 30
    [33, 36, 40] (by decide) (by decide) (by decide) (by decide)

/-- The `detectEvent()` call never fails, and it changes nothing but the debounce timer and
the committed level. -/
theorem Button.detectEvent_frame (w : Nat) (b : Button) (now : Nat) (pin : ButtonPinStatus) :
    ∃ t s e, b.detectEvent w now pin = some ({ b with debounceTimer := t, prevState := s }, e) := by
  unfold Button.detectEvent
  rw [Timer.restartDelay_eq]
  simp only
  split
  · split
    · exact ⟨_, b.prevState, _, rfl⟩
    · split
      · split
        · exact ⟨b.debounceTimer, b.prevState, _, rfl⟩
        · exact ⟨b.debounceTimer, b.prevState, _, rfl⟩
      · exact ⟨b.debounceTimer, b.prevState, _, rfl⟩
  · split
    · exact ⟨_, _, _, rfl⟩
    · exact ⟨_, b.prevState, _, rfl⟩

/-- The `update()` call never fails. -/
theorem Button.update_total (w : Nat) (b : Button) (now : Nat) (pin : ButtonPinStatus) :
    ∃ o, b.update w now pin = some o := by
  obtain ⟨t, s, e, h⟩ := Button.detectEvent_frame w b now pin
  unfold Button.update
  rw [h]
  cases e <;> exact ⟨_, rfl⟩

/-- What `update()` returns, read off the code of `detectEvent()`: the event is decided by
whether the debounce timer runs, whether it fires, the committed level and the sample. -/
theorem Button.update_eq (w : Nat) (b : Button) (now : Nat) (pin : ButtonPinStatus) :
    b.update w now pin = some
      (if b.debounceTimer.running = false then
        if b.prevState ≠ pin then
          ⟨{ b with debounceTimer := ⟨DebounceDelayDuration, 0, now, 1, 1, true⟩ },
            ButtonEvent.None, []⟩
        else if pin = b.downState then
          if b.longPressMs ≠ 0 ∧ b.longPressTriggered = false
              ∧ b.longPressMs < wsub w now b.lastPress then
            ⟨{ b with longPressTriggered := true }, ButtonEvent.LongPress,
              b.longPress.toList ++ b.hold.toList⟩
          else ⟨b, ButtonEvent.Hold, b.hold.toList⟩
        else ⟨b, ButtonEvent.None, []⟩
      else if b.debounceTimer.ready w now = true then
        if b.prevState = b.upState ∧ pin = b.downState then
          ⟨{ b with debounceTimer := b.debounceTimer.execute w, prevState := pin,
                    lastPress := now, longPressTriggered := false },
            ButtonEvent.Press, b.press.toList⟩
        else if b.prevState = b.downState ∧ pin = b.upState then
          ⟨{ b with debounceTimer := b.debounceTimer.execute w, prevState := pin,
                    lastRelease := now, longPressTriggered := false },
            ButtonEvent.Release, b.release.toList⟩
        else
          ⟨{ b with debounceTimer := b.debounceTimer.execute w, prevState := pin },
            ButtonEvent.None, []⟩
      else ⟨b, ButtonEvent.None, []⟩) := by
  cases hr : b.debounceTimer.running with
  | false =>
    simp only [if_true]
    by_cases hpx : b.prevState = pin
    · by_cases hd : pin = b.downState
      · by_cases hlp : b.longPressMs ≠ 0 ∧ b.longPressTriggered = false
            ∧ b.longPressMs < wsub w now b.lastPress
        · rw [Button.update_longPress w b now pin hr hpx hd hlp.1 hlp.2.1 hlp.2.2]
          simp only [hpx, hd, hlp, ne_eq, not_true_eq_false, if_false, if_true, and_self,
            not_false_eq_true]
        · rw [Button.update_hold w b now pin hr hpx hd (by
            by_cases h1 : b.longPressMs = 0
            · exact Or.inl h1
            · by_cases h2 : b.longPressTriggered = true
              · exact Or.inr (Or.inl h2)
              · refine Or.inr (Or.inr (Nat.not_lt.mp fun h3 => hlp ⟨h1, ?_, h3⟩))
                simpa using h2)]
          rw [if_neg (by simp [hpx]), if_pos hd, if_neg hlp]
      · rw [Button.update_idle w b now pin hr hpx hd]
        rw [if_neg (by simp [hpx]), if_neg hd]
    · rw [Button.update_arm w b now pin hr hpx, if_pos hpx]
  | true =>
    rw [if_neg (by simp)]
    cases hrd : b.debounceTimer.ready w now with
    | false =>
      rw [Button.update_wait w b now pin hr hrd, if_neg (by simp)]
    | true =>
      simp only [if_true]
      simp only [Button.update, Button.detectEvent, hr, Timer.update, hrd]
      by_cases h1 : b.prevState = b.upState ∧ pin = b.downState
      · have h1b : (b.prevState == b.upState && pin == b.downState) = true := by
          simpa using h1
        simp only [h1b, if_pos h1]
        simp [Button.doPress]
      · have h1b : (b.prevState == b.upState && pin == b.downState) = false := by
          simpa using h1
        by_cases h2 : b.prevState = b.downState ∧ pin = b.upState
        · have h2b : (b.prevState == b.downState && pin == b.upState) = true := by
            simpa using h2
          simp only [h1b, h2b, if_neg h1, if_pos h2]
          simp [Button.doRelease]
        · have h2b : (b.prevState == b.downState && pin == b.upState) = false := by
            simpa using h2
          simp only [h1b, h2b, if_neg h1, if_neg h2]
          simp

theorem Button.new_ok (activeLevel : ButtonPinStatus) (longPressMs : Nat) :
    (Button.new activeLevel longPressMs).Ok :=
  ⟨Button.new_levels _ _, fun h => by rw [Button.new_running] at h; exact absurd h (by decide)⟩

/-- The invariant `Button.Ok` is kept by `update()`. -/
theorem Button.update_ok (w : Nat) (b : Button) (now : Nat) (pin : ButtonPinStatus)
    (o : Outcome) (hok : b.Ok) (h : b.update w now pin = some o) : o.button.Ok := by
  rw [Button.update_eq] at h
  injection h with h
  subst h
  obtain ⟨hwf, hdeb⟩ := hok
  have harm : Timer.Debouncing ⟨DebounceDelayDuration, 0, now, 1, 1, true⟩ := ⟨rfl, rfl, rfl, rfl⟩
  have hexec : b.debounceTimer.running = true →
      (b.debounceTimer.execute w).running = true → (b.debounceTimer.execute w).Debouncing := by
    intro hr hrun
    rw [Timer.Debouncing.execute_running w _ (hdeb hr)] at hrun
    exact absurd hrun (by decide)
  split_ifs with h1 h2 h3 h4 h5 h6 h7
  · exact ⟨hwf, fun _ => harm⟩
  · exact ⟨hwf, hdeb⟩
  · exact ⟨hwf, hdeb⟩
  · exact ⟨hwf, hdeb⟩
  · exact ⟨hwf, hexec (by simpa using h1)⟩
  · exact ⟨hwf, hexec (by simpa using h1)⟩
  · exact ⟨hwf, hexec (by simpa using h1)⟩
  · exact ⟨hwf, hdeb⟩

/-- Every reachable Button state satisfies the invariant `Button.Ok`. -/
theorem Button.Reachable.ok (w : Nat) (b : Button) (h : Button.Reachable w b) : b.Ok := by
  induction h with
  | new activeLevel longPressMs => exact Button.new_ok _ _
  | update b now pin o _ hupd ih => exact Button.update_ok w b now pin o ih hupd
  | setHandler b btnEvent handler _ ih => cases btnEvent <;> exact ih
  | setLongPressDuration b longPressMs _ ih => exact ih

/-- Right after a Press: the debounce timer is stopped, the committed level is the pressed
one, `lastPress` is the clock value of the call and the long-press flag is clear. -/
theorem Button.update_press_state (w : Nat) (b : Button) (now : Nat) (pin : ButtonPinStatus)
    (o : Outcome) (hok : b.Ok) (h : b.update w now pin = some o)
    (hev : o.event = ButtonEvent.Press) :
    o.button.debounceTimer.running = false ∧ o.button.prevState = o.button.downState
      ∧ o.button.lastPress = now ∧ o.button.longPressTriggered = false := by
  rw [Button.update_eq] at h
  injection h with h
  subst h
  split_ifs at hev ⊢ with h1 h2 h3 h4 h5 h6 h7
  exact ⟨Timer.Debouncing.execute_running w _ (hok.2 (by simpa using h1)), h6.2, rfl, rfl⟩

/-- C4, one long press per hold: take any reachable Button state, an `update()` on it that
returns Press at clock `p`, and a long-press threshold `L = longPressMs` that is not 0.
Poll the resulting state any number of times, every poll reading the pressed level at a
clock value `t` with `p ≤ t` and `t - p < 2 ^ w`. Then the poll that is the first with
`t - p > L` returns LongPress and every other poll returns Hold; when no poll has
`t - p > L`, every poll returns Hold. -/
theorem c4_one_long_press_per_hold (w : Nat) (b0 : Button) (hreach : Button.Reachable w b0)
    (p : Nat) (pin0 : ButtonPinStatus) (o : Outcome) (hupd : b0.update w p pin0 = some o)
    (hev : o.event = ButtonEvent.Press) (hL : o.button.longPressMs ≠ 0)
    (polls : List Nat) (hpolls : ∀ t ∈ polls, p ≤ t ∧ t - p < 2 ^ w) :
    (∀ pre x post, polls = pre ++ x :: post →
        (∀ t ∈ pre, t - p ≤ o.button.longPressMs) → o.button.longPressMs < x - p →
        ∃ b1, Button.updates w o.button (polls.map (fun t => (t, o.button.downState)))
          = some (b1, pre.map (fun _ => ButtonEvent.Hold)
              ++ ButtonEvent.LongPress :: post.map (fun _ => ButtonEvent.Hold)))
    ∧ ((∀ t ∈ polls, t - p ≤ o.button.longPressMs) →
        ∃ b1, Button.updates w o.button (polls.map (fun t => (t, o.button.downState)))
          = some (b1, polls.map (fun _ => ButtonEvent.Hold))) := by
  obtain ⟨hr, hprev, hlast, hflag⟩ :=
    Button.update_press_state w b0 p pin0 o (Button.Reachable.ok w b0 hreach) hupd hev
  have helapsed : ∀ t ∈ polls, wsub w t o.button.lastPress = t - p := by
    intro t ht
    rw [hlast]
    exact wsub_eq w t p (hpolls t ht).1 (hpolls t ht).2
  constructor
  · intro pre x post hsplit hpre hx
    have h1 := Button.updates_hold w o.button pre hr hprev (fun t ht => by
      right; right
      rw [helapsed t (by rw [hsplit]; simp [ht])]
      exact hpre t ht)
    have h2 := Button.updates_single w o.button x o.button.downState _
      (Button.update_longPress w o.button x o.button.downState hr hprev rfl hL hflag (by
        rw [helapsed x (by rw [hsplit]; simp)]
        exact hx))
    have h3 := Button.updates_hold w { o.button with longPressTriggered := true } post hr hprev
      (fun t _ => Or.inr (Or.inl rfl))
    rw [hsplit, List.map_append, List.map_cons]
    exact ⟨_, Button.updates_append w _ _ _ _ _ _ _ h1
      (Button.updates_append w [(x, o.button.downState)] _ _ _ _ _ _ h2 h3)⟩
  · intro hall
    refine ⟨_, Button.updates_hold w o.button polls hr hprev (fun t ht => ?_)⟩
    right; right
    rw [helapsed t ht]
    exact hall t ht

/-- C4 on a 32-bit clock: an active-high Button with threshold 2000, armed at 10, returns
Press at 16 and is then polled at 20, 2015, 2017 and 2020. -/
theorem c4_one_long_press_per_hold_witness :
    (∀ pre x post, [20, 2015, 2017, 2020] = pre ++ x :: post →
        (∀ t ∈ pre, t - 16 ≤ 2000) → 2000 < x - 16 →
        ∃ b1, Button.updates 32
            { Button.new ButtonPinStatus.High 2000 with
              debounceTimer := ⟨5, 0, 10, 1, 0, false⟩
              prevState := ButtonPinStatus.High, lastPress := 16 }
            ([20, 2015, 2017, 2020].map (fun t => (t, ButtonPinStatus.High)))
          = some (b1, pre.map (fun _ => ButtonEvent.Hold)
              ++ ButtonEvent.LongPress :: post.map (fun _ => ButtonEvent.Hold)))
    ∧ ((∀ t ∈ [20, 2015, 2017, 2020], t - 16 ≤ 2000) →
        ∃ b1, Button.updates 32
            { Button.new ButtonPinStatus.High 2000 with
              debounceTimer := ⟨5, 0, 10, 1, 0, false⟩
              prevState := ButtonPinStatus.High, lastPress := 16 }
            ([20, 2015, 2017, 2020].map (fun t => (t, ButtonPinStatus.High)))
          = some (b1, [20, 2015, 2017, 2020].map (fun _ => ButtonEvent.Hold))) :=
  c4_one_long_press_per_hold 32
    { Button.new ButtonPinStatus.High 2000 with debounceTimer := ⟨5, 0, 10, 1, 1, true⟩ }
    (Button.Reachable.update (Button.new ButtonPinStatus.High 2000) 10 ButtonPinStatus.High
      ⟨{ Button.new ButtonPinStatus.High 2000 with debounceTimer := ⟨5, 0, 10, 1, 1, true⟩ },
        ButtonEvent.None, []⟩
      (Button.Reachable.new ButtonPinStatus.High 2000) (by decide))
    16 ButtonPinStatus.High
    ⟨{ Button.new ButtonPinStatus.High 2000 with
        debounceTimer := ⟨5, 0, 10, 1, 0, false⟩
        prevState := ButtonPinStatus.High, lastPress := 16 },
      ButtonEvent.Press, []⟩
    (by decide) rfl (by decide) [20, 2015, 2017, 2020] (by decide)

/-- One `update()` call is a legal move of the abstract state machine. -/
theorem Button.update_legal (w : Nat) (b : Button) (now : Nat) (pin : ButtonPinStatus)
    (o : Outcome) (hwf : b.upState ≠ b.downState) (h : b.update w now pin = some o)
    (rest : List ButtonEvent)
    (hrest : legalEvents (decide (o.button.prevState = o.button.downState))
      o.button.longPressTriggered rest) :
    legalEvents (decide (b.prevState = b.downState)) b.longPressTriggered (o.event :: rest) := by
  rw [Button.update_eq] at h
  injection h with h
  subst h
  split_ifs at hrest ⊢ with h1 h2 h3 h4 h5 h6 h7
  · exact hrest
  · have hp : b.prevState = b.downState := by
      rw [← h3]
      exact not_not.mp h2
    simp only [hp, decide_True] at hrest ⊢
    exact ⟨rfl, h4.2.1, hrest⟩
  · have hp : b.prevState = b.downState := by
      rw [← h3]
      exact not_not.mp h2
    simp only [hp, decide_True] at hrest ⊢
    exact ⟨rfl, hrest⟩
  · exact hrest
  · simp only [h6.2, decide_True] at hrest
    refine ⟨?_, hrest⟩
    rw [h6.1]
    exact decide_eq_false hwf
  · simp only [h7.2, decide_eq_false hwf] at hrest
    refine ⟨?_, hrest⟩
    rw [h7.1]
    exact decide_eq_true rfl
  · have hsame : decide (pin = b.downState) = decide (b.prevState = b.downState) := by
      cases hp : b.prevState <;> cases pin <;> cases hu : b.upState <;>
        cases hd : b.downState <;> simp_all
    show legalEvents _ _ rest
    simp only at hrest
    rw [← hsame]
    exact hrest
  · exact hrest

/-- The events returned by the polling loop are a legal run of the abstract state machine,
and the loop never fails. -/
theorem Button.updates_legal (w : Nat) (polls : List (Nat × ButtonPinStatus)) :
    ∀ b : Button, b.upState ≠ b.downState →
      ∃ b1 evs, Button.updates w b polls = some (b1, evs)
        ∧ legalEvents (decide (b.prevState = b.downState)) b.longPressTriggered evs := by
  induction polls with
  | nil =>
    intro b _
    exact ⟨b, [], rfl, trivial⟩
  | cons p rest ih =>
    intro b hwf
    obtain ⟨now, pin⟩ := p
    obtain ⟨o, ho⟩ := Button.update_total w b now pin
    have hlev : o.button.upState = b.upState ∧ o.button.downState = b.downState := by
      have h := ho
      rw [Button.update_eq] at h
      injection h with h
      subst h
      split_ifs <;> exact ⟨rfl, rfl⟩
    obtain ⟨b1, evs, hrun, hlegal⟩ := ih o.button (by rw [hlev.1, hlev.2]; exact hwf)
    refine ⟨b1, o.event :: evs, ?_, Button.update_legal w b now pin o hwf ho evs hlegal⟩
    rw [Button.updates_cons w b now pin rest o ho, hrun]
    rfl

theorem legalEvents_drop (pre rest : List ButtonEvent) :
    ∀ held flagged, legalEvents held flagged (pre ++ rest) →
      ∃ held1 flagged1, legalEvents held1 flagged1 rest := by
  induction pre with
  | nil => exact fun held flagged h => ⟨held, flagged, h⟩
  | cons e pre ih =>
    intro held flagged h
    cases e with
    | None => exact ih _ _ h
    | Press => exact ih _ _ h.2
    | Release => exact ih _ _ h.2
    | Hold => exact ih _ _ h.2
    | LongPress => exact ih _ _ h.2.2

theorem legalEvents_count (mid post : List ButtonEvent) :
    ∀ flagged, legalEvents true flagged (mid ++ post) → ButtonEvent.Release ∉ mid →
      mid.count ButtonEvent.LongPress ≤ (if flagged then 0 else 1) := by
  induction mid with
  | nil => intro flagged _ _; simp
  | cons e mid ih =>
    intro flagged h hrel
    have hrel1 : ButtonEvent.Release ∉ mid := fun hm => hrel (List.mem_cons_of_mem _ hm)
    cases e with
    | None =>
      rw [List.count_cons_of_ne (by decide)]
      exact ih _ h hrel1
    | Press => exact absurd h.1 (by decide)
    | Release => exact absurd (List.mem_cons_self _ _) hrel
    | Hold =>
      rw [List.count_cons_of_ne (by decide)]
      exact ih _ h.2 hrel1
    | LongPress =>
      have h0 := ih true h.2.2 hrel1
      simp only [if_true] at h0
      rw [List.count_cons_self, h.2.1]
      simp only [Bool.false_eq_true, if_false]
      omega

theorem legalEvents_longPress (pre post : List ButtonEvent) :
    ∀ held flagged, legalEvents held flagged (pre ++ ButtonEvent.LongPress :: post) →
      (held = true ∧ ButtonEvent.Release ∉ pre)
        ∨ ∃ pre1 mid, pre = pre1 ++ ButtonEvent.Press :: mid ∧ ButtonEvent.Release ∉ mid := by
  induction pre with
  | nil =>
    intro held flagged h
    exact Or.inl ⟨h.1, by simp⟩
  | cons e pre ih =>
    intro held flagged h
    have key : ∀ held1 flagged1, legalEvents held1 flagged1 (pre ++ ButtonEvent.LongPress :: post) →
        (held1 = true → e ≠ ButtonEvent.Press → e ≠ ButtonEvent.Release → held = true) →
        (e = ButtonEvent.Release → held1 = false) →
        (held = true ∧ ButtonEvent.Release ∉ e :: pre)
          ∨ ∃ pre1 mid, e :: pre = pre1 ++ ButtonEvent.Press :: mid
              ∧ ButtonEvent.Release ∉ mid := by
      intro held1 flagged1 h1 hkeep hrel
      rcases ih held1 flagged1 h1 with ⟨hh, hnr⟩ | ⟨pre1, mid, hsplit, hnr⟩
      · by_cases hP : e = ButtonEvent.Press
        · exact Or.inr ⟨[], pre, by rw [hP]; rfl, hnr⟩
        · by_cases hR : e = ButtonEvent.Release
          · rw [hrel hR] at hh
            exact absurd hh (by decide)
          · refine Or.inl ⟨hkeep hh hP hR, ?_⟩
            simp only [List.mem_cons, not_or]
            exact ⟨fun h => hR h.symm, hnr⟩
      · exact Or.inr ⟨e :: pre1, mid, by rw [hsplit]; rfl, hnr⟩
    cases e with
    | None => exact key held flagged h (fun hh _ _ => hh) (fun he => by cases he)
    | Press => exact key true false h.2 (fun _ hP _ => absurd rfl hP) (fun he => by cases he)
    | Release => exact key false false h.2 (fun _ _ hR => absurd rfl hR) (fun _ => rfl)
    | Hold => exact key held flagged h.2 (fun hh _ _ => hh) (fun he => by cases he)
    | LongPress => exact key true true h.2.2 (fun _ _ _ => h.1) (fun he => by cases he)

/-- C5, at most one long press per hold: for a Button polled from its construction, with
arbitrary pin samples and clock values, at most one `update()` returns LongPress in any
stretch of polls that follows a Press and contains no Release, and every `update()` that
returns LongPress comes after a Press with no Release in between (so none comes before
the first Press or between a Release and the next Press). -/
theorem c5_at_most_once_long_press (w : Nat) (activeLevel : ButtonPinStatus)
    (longPressMs : Nat) (polls : List (Nat × ButtonPinStatus)) :
    ∃ b1 evs, Button.updates w (Button.new activeLevel longPressMs) polls = some (b1, evs)
      ∧ (∀ pre mid post, evs = pre ++ ButtonEvent.Press :: (mid ++ post) →
          ButtonEvent.Release ∉ mid → mid.count ButtonEvent.LongPress ≤ 1)
      ∧ (∀ pre post, evs = pre ++ ButtonEvent.LongPress :: post →
          ∃ pre1 mid, pre = pre1 ++ ButtonEvent.Press :: mid ∧ ButtonEvent.Release ∉ mid) := by
  obtain ⟨b1, evs, hrun, hlegal⟩ :=
    Button.updates_legal w polls (Button.new activeLevel longPressMs) (Button.new_levels _ _)
  have hheld : decide ((Button.new activeLevel longPressMs).prevState
      = (Button.new activeLevel longPressMs).downState) = false := by
    rw [Button.new_prevState]
    exact decide_eq_false (Button.new_levels _ _)
  rw [hheld] at hlegal
  refine ⟨b1, evs, hrun, ?_, ?_⟩
  · intro pre mid post hsplit hrel
    rw [hsplit] at hlegal
    obtain ⟨held1, flagged1, h1⟩ := legalEvents_drop pre _ _ _ hlegal
    exact legalEvents_count mid post false h1.2 hrel
  · intro pre post hsplit
    rw [hsplit] at hlegal
    rcases legalEvents_longPress pre post _ _ hlegal with ⟨hh, _⟩ | h
    · exact absurd hh (by decide)
    · exact h

/-- C6, long press disabled: for a Button whose `longPressMs` is 0, in any state and for any
clock value and pin sample, `update()` does not return LongPress; and when the debounce
timer is not running and the sample is the committed level, which is the pressed level,
`update()` returns Hold. -/
theorem c6_long_press_disabled (w : Nat) (b : Button) (hL : b.longPressMs = 0) (now : Nat)
    (pin : ButtonPinStatus) :
    ∃ o, b.update w now pin = some o
      ∧ o.event ≠ ButtonEvent.LongPress
      ∧ (b.debounceTimer.running = false → pin = b.prevState → b.prevState = b.downState →
          o.event = ButtonEvent.Hold) := by
  refine ⟨_, Button.update_eq w b now pin, ?_, ?_⟩
  · split_ifs with h1 h2 h3 h4 h5 h6 h7 <;> first | exact absurd hL h4.1 | simp
  · intro hr hpin hprev
    rw [if_pos hr, if_neg (by rw [hpin]; simp), if_pos (by rw [hpin]; exact hprev),
      if_neg (by simp [hL])]

/-- C6 on a 32-bit clock: a held active-high Button with `longPressMs` 0, polled long after
the press. -/
theorem c6_long_press_disabled_witness :
    ∃ o, Button.update 32
        { Button.new ButtonPinStatus.High 0 with prevState := ButtonPinStatus.High, lastPress := 16 }
        5000 ButtonPinStatus.High = some o
      ∧ o.event ≠ ButtonEvent.LongPress
      ∧ (({ Button.new ButtonPinStatus.High 0 with
              prevState := ButtonPinStatus.High, lastPress := 16 } : Button).debounceTimer.running
            = false →
          ButtonPinStatus.High = ({ Button.new ButtonPinStatus.High 0 with
              prevState := ButtonPinStatus.High, lastPress := 16 } : Button).prevState →
          ({ Button.new ButtonPinStatus.High 0 with
              prevState := ButtonPinStatus.High, lastPress := 16 } : Button).prevState
            = ({ Button.new ButtonPinStatus.High 0 with
              prevState := ButtonPinStatus.High, lastPress := 16 } : Button).downState →
          o.event = ButtonEvent.Hold) :=
  c6_long_press_disabled 32
    { Button.new ButtonPinStatus.High 0 with prevState := ButtonPinStatus.High, lastPress := 16 }
    rfl 5000 ButtonPinStatus.High

/-- C7, handler dispatch: in any state and for any input, one `update()` call returns one
event and calls the handlers of the non-empty slots as follows: Press calls the Press
handler only, Release the Release handler only, Hold the Hold handler only, None calls no
handler, LongPress calls the LongPress handler and then the Hold handler; only LongPress
can call two handlers. -/
theorem c7_handler_dispatch (w : Nat) (b : Button) (now : Nat) (pin : ButtonPinStatus) :
    ∃ o, b.update w now pin = some o
      ∧ o.calls = (match o.event with
          | ButtonEvent.Press => b.press.toList
          | ButtonEvent.Release => b.release.toList
          | ButtonEvent.Hold => b.hold.toList
          | ButtonEvent.LongPress => b.longPress.toList ++ b.hold.toList
          | ButtonEvent.None => [])
      ∧ (o.event ≠ ButtonEvent.LongPress → o.calls.length ≤ 1) := by
  have hlen : ∀ s : Option Nat, s.toList.length ≤ 1 := by
    intro s
    cases s <;> simp
  refine ⟨_, Button.update_eq w b now pin, ?_, ?_⟩
  · split_ifs <;> rfl
  · split_ifs <;> simp [hlen]

/-- C8, timestamps and flag on committed edges: in any state and for any input, an
`update()` at clock value `now` that returns Press sets `lastPress` to `now`, leaves
`lastRelease` as it was and clears `longPressTriggered`; one that returns Release sets
`lastRelease` to `now`, leaves `lastPress` as it was and clears `longPressTriggered`; one
that returns None, Hold or LongPress changes neither `lastPress` nor `lastRelease`. -/
theorem c8_timestamps_on_edges (w : Nat) (b : Button) (now : Nat) (pin : ButtonPinStatus) :
    ∃ o, b.update w now pin = some o
      ∧ (o.event = ButtonEvent.Press →
          o.button.lastPress = now ∧ o.button.lastRelease = b.lastRelease
            ∧ o.button.longPressTriggered = false)
      ∧ (o.event = ButtonEvent.Release →
          o.button.lastRelease = now ∧ o.button.lastPress = b.lastPress
            ∧ o.button.longPressTriggered = false)
      ∧ (o.event = ButtonEvent.None ∨ o.event = ButtonEvent.Hold
            ∨ o.event = ButtonEvent.LongPress →
          o.button.lastPress = b.lastPress ∧ o.button.lastRelease = b.lastRelease) := by
  refine ⟨_, Button.update_eq w b now pin, ?_, ?_, ?_⟩
  · split_ifs <;> simp
  · split_ifs <;> simp
  · split_ifs <;> simp

/-! ## Timer: sequences of `update` calls -/

theorem Timer.updates_concat (w : Nat) (xs ys : List Nat) (t : Timer) :
    Timer.updates w t (xs ++ ys)
      = ((Timer.updates w (Timer.updates w t xs).1 ys).1,
          (Timer.updates w t xs).2 ++ (Timer.updates w (Timer.updates w t xs).1 ys).2) := by
  induction xs generalizing t with
  | nil => rfl
  | cons x xs ih =>
    rw [List.cons_append]
    simp only [Timer.updates]
    rw [ih]
    rfl

/-- A stopped timer: `update` returns false and changes nothing. -/
theorem Timer.update_stopped (w : Nat) (t : Timer) (now : Nat) (h : t.running = false) :
    t.update w now = (t, false) := by
  simp [Timer.update, h]

theorem Timer.updates_stopped (w : Nat) (t : Timer) (times : List Nat)
    (h : t.running = false) :
    Timer.updates w t times = (t, times.map (fun _ => false)) := by
  induction times with
  | nil => rfl
  | cons x xs ih =>
    simp only [Timer.updates, Timer.update_stopped w t x h, ih, List.map_cons]

/-- A one-shot timer that fires is stopped and completed, with nothing remaining. -/
theorem Timer.update_once_fired (w : Nat) (t : Timer) (now : Nat) (hd : t.duration = 1)
    (hr : t.remaining = 1) (hf : (t.update w now).2 = true) :
    (t.update w now).1.running = false ∧ (t.update w now).1.remaining = 0
      ∧ (t.update w now).1.duration = 1 := by
  unfold Timer.update at hf ⊢
  split_ifs at hf ⊢ with h
  rw [Timer.execute_once w t hd hr]
  exact ⟨rfl, rfl, hd⟩

/-- A sequence of updates leaves a one-shot timer either as it was armed (no firing yet) or
stopped after exactly one firing. -/
theorem Timer.updates_once (w : Nat) (times : List Nat) :
    ∀ t : Timer, t.duration = 1 → t.remaining = 1 →
      ((Timer.updates w t times).2.count true = 0
        ∧ (Timer.updates w t times).1.duration = 1
        ∧ (Timer.updates w t times).1.remaining = 1)
      ∨ ((Timer.updates w t times).2.count true = 1
        ∧ (Timer.updates w t times).1.running = false) := by
  induction times with
  | nil =>
    intro t hd hr
    exact Or.inl ⟨rfl, hd, hr⟩
  | cons x xs ih =>
    intro t hd hr
    simp only [Timer.updates]
    cases hf : (t.update w x).2 with
    | false =>
      have hsame : (t.update w x).1 = t := by
        unfold Timer.update at hf ⊢
        split_ifs at hf ⊢ with h
        rfl
      rw [hsame, List.count_cons_of_ne (by decide)]
      exact ih t hd hr
    | true =>
      obtain ⟨h1, _, _⟩ := Timer.update_once_fired w t x hd hr hf
      rw [Timer.updates_stopped w _ xs h1]
      refine Or.inr ⟨?_, h1⟩
      simp only [List.count_cons_self]
      have : List.count true (List.map (fun _ => false) xs) = 0 := by
        rw [List.count_eq_zero]
        simp
      omega

/-- C10, Once semantics: a Timer constructed with duration Once (any due time and period)
and started at `T0`, then updated at arbitrary clock values: at most one `update` returns
true; an `update` that returns true leaves the timer not running, completed and with
nothing remaining; every later `update` returns false and leaves the timer as it is; and a
later `start` fails. -/
theorem c10_once_semantics (w dueTime period T0 : Nat) (t : Timer)
    (hstart : (Timer.new dueTime period Duration.Once).start T0 = some t)
    (times : List Nat) :
    (Timer.updates w t times).2.count true ≤ 1
    ∧ ∀ pre now post, times = pre ++ now :: post →
        ((Timer.updates w t pre).1.update w now).2 = true →
        ((Timer.updates w t pre).1.update w now).1.running = false
        ∧ ((Timer.updates w t pre).1.update w now).1.completed = true
        ∧ ((Timer.updates w t pre).1.update w now).1.remaining = 0
        ∧ Timer.updates w ((Timer.updates w t pre).1.update w now).1 post
            = (((Timer.updates w t pre).1.update w now).1, post.map (fun _ => false))
        ∧ (Timer.updates w t times).1 = ((Timer.updates w t pre).1.update w now).1
        ∧ ∀ T, (Timer.updates w t times).1.start T = none := by
  have ht : t = ⟨dueTime, period, T0, 1, 1, true⟩ := by
    simp [Timer.new, Timer.start, Timer.completed, Timer.endless, Duration.Once,
      Duration.Endless] at hstart
    exact hstart.symm
  have hd : t.duration = 1 := by rw [ht]
  have hr : t.remaining = 1 := by rw [ht]
  constructor
  · rcases Timer.updates_once w times t hd hr with h | h
    · omega
    · omega
  · intro pre now post hsplit hf
    rcases Timer.updates_once w pre t hd hr with ⟨_, hd1, hr1⟩ | ⟨_, hstop⟩
    · obtain ⟨h1, h2, h3⟩ := Timer.update_once_fired w _ now hd1 hr1 hf
      have hpost := Timer.updates_stopped w _ post h1
      have hfinal : (Timer.updates w t times).1
          = ((Timer.updates w t pre).1.update w now).1 := by
        rw [hsplit, Timer.updates_concat]
        simp only [Timer.updates]
        rw [hpost]
      have hcompleted : ((Timer.updates w t pre).1.update w now).1.completed = true := by
        simp [Timer.completed, Timer.endless, h2, h3, Duration.Endless]
      refine ⟨h1, hcompleted, h2, hpost, hfinal, ?_⟩
      intro T
      rw [hfinal]
      simp [Timer.start, h1, hcompleted]
    · rw [Timer.update_stopped w _ now hstop] at hf
      cases hf

/-- C10 on a 32-bit clock: a one-shot timer with due time 5, started at 100 and updated at
101, 104, 105, 106 and 200. -/
theorem c10_once_semantics_witness :
    (Timer.updates 32 ⟨5, 0, 100, 1, 1, true⟩ [101, 104, 105, 106, 200]).2.count true ≤ 1
    ∧ ∀ pre now post, [101, 104, 105, 106, 200] = pre ++ now :: post →
        ((Timer.updates 32 ⟨5, 0, 100, 1, 1, true⟩ pre).1.update 32 now).2 = true →
        ((Timer.updates 32 ⟨5, 0, 100, 1, 1, true⟩ pre).1.update 32 now).1.running = false
        ∧ ((Timer.updates 32 ⟨5, 0, 100, 1, 1, true⟩ pre).1.update 32 now).1.completed = true
        ∧ ((Timer.updates 32 ⟨5, 0, 100, 1, 1, true⟩ pre).1.update 32 now).1.remaining = 0
        ∧ Timer.updates 32 ((Timer.updates 32 ⟨5, 0, 100, 1, 1, true⟩ pre).1.update 32 now).1 post
            = (((Timer.updates 32 ⟨5, 0, 100, 1, 1, true⟩ pre).1.update 32 now).1,
                post.map (fun _ => false))
        ∧ (Timer.updates 32 ⟨5, 0, 100, 1, 1, true⟩ [101, 104, 105, 106, 200]).1
            = ((Timer.updates 32 ⟨5, 0, 100, 1, 1, true⟩ pre).1.update 32 now).1
        ∧ ∀ T, (Timer.updates 32 ⟨5, 0, 100, 1, 1, true⟩ [101, 104, 105, 106, 200]).1.start T
            = none :=
  c10_once_semantics 32 5 0 100 ⟨5, 0, 100, 1, 1, true⟩ (by decide) [101, 104, 105, 106, 200]

theorem wsub_mod_right (w a b : Nat) : wsub w a (b % 2 ^ w) = wsub w a b := by
  simp [wsub]

/-- Readiness of a periodic timer after `k` firings: the update time has reached
`T0 + d + k * P`. -/
theorem Timer.AfterFirings.ready_at_schedule (w d P D T0 k : Nat) (hD : 1 ≤ D)
    (hbound : d + D * P < 2 ^ w) (t : Timer) (h : t.AfterFirings w d P D T0 k) (x : Nat)
    (hx1 : T0 + k * P ≤ x + P) (hx2 : x - T0 + P < 2 ^ w) (hx0 : T0 ≤ x) :
    t.ready w x = decide (T0 + d + k * P ≤ x) := by
  obtain ⟨hdue, hper, _, _, _, htick⟩ := h
  have hP : P ≤ D * P := Nat.le_mul_of_pos_left P hD
  unfold Timer.ready
  rw [hdue, hper, htick, wsub_mod_right]
  unfold wadd
  rw [wsub_mod_left, Nat.mod_eq_of_lt (by omega : d + P < 2 ^ w)]
  generalize k * P = kp at *
  rw [wsub_eq w (x + P) (T0 + kp) hx1 (by omega)]
  congr 1
  apply propext
  omega

/-- One update of a periodic timer after `k` firings. -/
theorem Timer.AfterFirings.update (w d P D T0 k : Nat) (hD : 1 ≤ D)
    (hbound : d + D * P < 2 ^ w) (t : Timer) (h : t.AfterFirings w d P D T0 k)
    (x : Nat) (hx1 : T0 + k * P ≤ x + P) (hx2 : x - T0 + P < 2 ^ w) (hx0 : T0 ≤ x) :
    (t.update w x).2 = decide (k < D ∧ T0 + d + k * P ≤ x)
    ∧ ((t.update w x).2 = false → (t.update w x).1 = t)
    ∧ ((t.update w x).2 = true → (t.update w x).1.AfterFirings w d P D T0 (k + 1)) := by
  have hready := Timer.AfterFirings.ready_at_schedule w d P D T0 k hD hbound t h x hx1 hx2 hx0
  obtain ⟨hdue, hper, hdur, hrem, hrun, htick⟩ := h
  unfold Timer.update
  rw [hrun, hready]
  by_cases hfire : k < D ∧ T0 + d + k * P ≤ x
  · have hcond : (decide (k < D) && decide (T0 + d + k * P ≤ x)) = true := by
      simp [hfire.1, hfire.2]
    rw [if_pos hcond]
    refine ⟨by simp [hfire], by simp, fun _ => ?_⟩
    have hne : t.endless = false := by
      simp only [Timer.endless, hdur, Duration.Endless]
      rw [beq_eq_false_iff_ne]
      omega
    have htick1 : wadd w t.tick t.period = (T0 + (k + 1) * P) % 2 ^ w := by
      rw [htick, hper]
      unfold wadd
      rw [Nat.mod_add_mod]
      congr 1
      ring
    by_cases hlast : k + 1 = D
    · have hzero : (t.remaining - 1 == 0) = true := by
        rw [beq_iff_eq, hrem]
        omega
      simp only [Timer.execute, Timer.endless] at hne ⊢
      simp only [hne, hzero, Timer.stop, Bool.false_eq_true, if_false, if_true]
      refine ⟨hdue, hper, hdur, ?_, ?_, htick1⟩
      · simp only [hrem]
        push_cast
        ring
      · simp [hlast]
    · have hzero : (t.remaining - 1 == 0) = false := by
        rw [beq_eq_false_iff_ne, hrem]
        omega
      simp only [Timer.execute, Timer.endless] at hne ⊢
      simp only [hne, hzero, Bool.false_eq_true, if_false]
      refine ⟨hdue, hper, hdur, ?_, ?_, htick1⟩
      · simp only [hrem]
        push_cast
        ring
      · simp only [hrun]
        have h1 : k + 1 < D := by omega
        simp [h1, hfire.1]
  · have hcond : (decide (k < D) && decide (T0 + d + k * P ≤ x)) = false := by
      rw [← Bool.decide_and]
      exact decide_eq_false hfire
    rw [if_neg (by simp [hcond])]
    exact ⟨by simp [hfire], fun _ => rfl, fun h => by cases h⟩

/-- A sequence of updates of a periodic timer after `k` firings, at non-decreasing times:
the state after the sequence is the state after `k + c` firings, where `c` counts the
updates that returned true. -/
theorem Timer.AfterFirings.updates (w d P D T0 : Nat) (hD : 1 ≤ D)
    (hbound : d + D * P < 2 ^ w) (times : List Nat) :
    ∀ (t : Timer) (k : Nat), t.AfterFirings w d P D T0 k → k ≤ D →
      times.Pairwise (fun s u => s ≤ u) →
      (∀ x ∈ times, T0 ≤ x ∧ x - T0 + P < 2 ^ w) →
      (∀ x ∈ times, T0 + k * P ≤ x + P) →
      (Timer.updates w t times).1.AfterFirings w d P D T0
          (k + (Timer.updates w t times).2.count true)
        ∧ k + (Timer.updates w t times).2.count true ≤ D
        ∧ ∀ y, (∀ x ∈ times, x ≤ y) → T0 + k * P ≤ y + P →
            T0 + (k + (Timer.updates w t times).2.count true) * P ≤ y + P := by
  induction times with
  | nil =>
    intro t k h hk _ _ _
    exact ⟨h, hk, fun y _ hy => hy⟩
  | cons x rest ih =>
    intro t k h hk hsorted hrange hlow
    rw [List.pairwise_cons] at hsorted
    have hx := hrange x (List.mem_cons_self _ _)
    obtain ⟨hres, hsame, hnext⟩ := Timer.AfterFirings.update w d P D T0 k hD hbound t h x
      (hlow x (List.mem_cons_self _ _)) hx.2 hx.1
    simp only [Timer.updates]
    cases hf : (t.update w x).2 with
    | false =>
      rw [hsame hf, List.count_cons_of_ne (by decide)]
      exact match ih t k h hk hsorted.2 (fun z hz => hrange z (List.mem_cons_of_mem _ hz))
          (fun z hz => hlow z (List.mem_cons_of_mem _ hz)) with
        | ⟨h1, h2, h3⟩ =>
          ⟨h1, h2, fun y hy hy0 => h3 y (fun z hz => hy z (List.mem_cons_of_mem _ hz)) hy0⟩
    | true =>
      rw [hf] at hres
      have hfire : k < D ∧ T0 + d + k * P ≤ x := of_decide_eq_true hres.symm
      have hmul : (k + 1) * P = k * P + P := by ring
      have hlow1 : ∀ z ∈ rest, T0 + (k + 1) * P ≤ z + P := by
        intro z hz
        have := hsorted.1 z hz
        rw [hmul]
        omega
      obtain ⟨h1, h2, h3⟩ := ih (t.update w x).1 (k + 1) (hnext hf) (by omega) hsorted.2
        (fun z hz => hrange z (List.mem_cons_of_mem _ hz)) hlow1
      rw [List.count_cons_self]
      have hassoc : k + ((Timer.updates w (t.update w x).1 rest).2.count true + 1)
          = k + 1 + (Timer.updates w (t.update w x).1 rest).2.count true := by omega
      rw [hassoc]
      refine ⟨h1, h2, fun y hy _ => h3 y (fun z hz => hy z (List.mem_cons_of_mem _ hz)) ?_⟩
      have := hy x (List.mem_cons_self _ _)
      rw [hmul]
      omega

/-- C9, drift-free periodicity: a Timer with due time `d`, period `P` and finite duration
`D ≥ 1`, started at `T0`, is updated at non-decreasing times, none before `T0`, with
`d + D * P` and `now - T0 + P` below `2 ^ w`. After any such sequence `pre` of updates, of
which `k` returned true: `k ≤ D`, the anchor `tick` is `T0 + k * P` (on the `w`-bit
counter), `remaining` is `D - k`, the timer runs exactly when `k < D`, and the next update,
at `now`, returns true exactly when `k < D` and `T0 + d + k * P ≤ now`. So firing number
`k` happens at the first update made at or after `T0 + d + k * P` and after the previous
firing, whatever the earlier update times were, and after `D` firings the timer is stopped
and no update fires. -/
theorem c9_drift_free_periodicity (w d P D T0 : Nat) (hD : 1 ≤ D) (hT0 : T0 < 2 ^ w)
    (hbound : d + D * P < 2 ^ w) (t : Timer)
    (hstart : (Timer.new d P (D : Int)).start T0 = some t)
    (pre : List Nat) (now : Nat)
    (hsorted : (pre ++ [now]).Pairwise (fun s u => s ≤ u))
    (hrange : ∀ x ∈ pre ++ [now], T0 ≤ x ∧ x - T0 + P < 2 ^ w) :
    (Timer.updates w t pre).2.count true ≤ D
    ∧ (Timer.updates w t pre).1.tick
        = (T0 + (Timer.updates w t pre).2.count true * P) % 2 ^ w
    ∧ (Timer.updates w t pre).1.remaining
        = (D : Int) - ((Timer.updates w t pre).2.count true : Int)
    ∧ (Timer.updates w t pre).1.running = decide ((Timer.updates w t pre).2.count true < D)
    ∧ ((Timer.updates w t pre).1.update w now).2
        = decide ((Timer.updates w t pre).2.count true < D
            ∧ T0 + d + (Timer.updates w t pre).2.count true * P ≤ now) := by
  have ht : t = ⟨d, P, T0, (D : Int), (D : Int), true⟩ := by
    have hnn : (0 : Int) ≤ (D : Int) := Int.natCast_nonneg D
    have hne : ¬ ((D : Int) = 0) := by omega
    have hne1 : ¬ ((D : Int) = -1) := by omega
    simp [Timer.new, Timer.start, Timer.completed, Timer.endless, Duration.Endless, hnn,
      hne, hne1] at hstart
    exact hstart.symm
  have h0 : t.AfterFirings w d P D T0 0 := by
    rw [ht]
    refine ⟨rfl, rfl, rfl, by simp, ?_, ?_⟩
    · simp
      omega
    · simp [Nat.mod_eq_of_lt hT0]
  rw [List.pairwise_append] at hsorted
  obtain ⟨hsp, _, hlast⟩ := hsorted
  have hnow := hrange now (by simp)
  obtain ⟨h1, h2, h3⟩ := Timer.AfterFirings.updates w d P D T0 hD hbound pre t 0 h0
    (Nat.zero_le _) hsp (fun x hx => hrange x (by simp [hx]))
    (fun x hx => by
      have := (hrange x (by simp [hx])).1
      omega)
  rw [Nat.zero_add] at h1 h2 h3
  have h4 := h3 now (fun x hx => hlast x hx now (by simp)) (by omega)
  obtain ⟨hres, _, _⟩ := Timer.AfterFirings.update w d P D T0 _ hD hbound _ h1 now h4
    hnow.2 hnow.1
  exact ⟨h2, h1.2.2.2.2.2, h1.2.2.2.1, h1.2.2.2.2.1, hres⟩

/-- C9 on a 32-bit clock: due time 5, period 10, three firings, started at 100 and updated
at 101, 105, 107, 115, 140 and then 141. -/
theorem c9_drift_free_periodicity_witness :
    (Timer.updates 32 ⟨5, 10, 100, 3, 3, true⟩ [101, 105, 107, 115, 140]).2.count true ≤ 3
    ∧ (Timer.updates 32 ⟨5, 10, 100, 3, 3, true⟩ [101, 105, 107, 115, 140]).1.tick
        = (100 + (Timer.updates 32 ⟨5, 10, 100, 3, 3, true⟩
            [101, 105, 107, 115, 140]).2.count true * 10) % 2 ^ 32
    ∧ (Timer.updates 32 ⟨5, 10, 100, 3, 3, true⟩ [101, 105, 107, 115, 140]).1.remaining
        = ((3 : Nat) : Int) - ((Timer.updates 32 ⟨5, 10, 100, 3, 3, true⟩
            [101, 105, 107, 115, 140]).2.count true : Int)
    ∧ (Timer.updates 32 ⟨5, 10, 100, 3, 3, true⟩ [101, 105, 107, 115, 140]).1.running
        = decide ((Timer.updates 32 ⟨5, 10, 100, 3, 3, true⟩
            [101, 105, 107, 115, 140]).2.count true < 3)
    ∧ ((Timer.updates 32 ⟨5, 10, 100, 3, 3, true⟩
          [101, 105, 107, 115, 140]).1.update 32 141).2
        = decide ((Timer.updates 32 ⟨5, 10, 100, 3, 3, true⟩
              [101, 105, 107, 115, 140]).2.count true < 3
            ∧ 100 + 5 + (Timer.updates 32 ⟨5, 10, 100, 3, 3, true⟩
              [101, 105, 107, 115, 140]).2.count true * 10 ≤ 141) :=
  c9_drift_free_periodicity 32 5 10 3 100 (by decide) (by decide) (by decide)
    ⟨5, 10, 100, 3, 3, true⟩ (by decide) [101, 105, 107, 115, 140] 141 (by decide) (by decide)

/-! ## Timer: the contracts of `start`, `change` and `restart` -/

theorem Timer.completed_iff (t : Timer) :
    t.completed = true ↔ t.duration ≠ Duration.Endless ∧ t.remaining = 0 := by
  simp [Timer.completed, Timer.endless]

theorem Timer.change_stopped (t : Timer) (dueTime period : Nat) (duration : Int)
    (h : t.running = false) :
    t.change dueTime period duration = some
      { t with
        dueTime := dueTime
        period := period
        duration := if duration ≥ 0 then duration else Duration.Endless
        remaining := if duration ≥ 0 then duration else Duration.Endless } := by
  simp [Timer.change, h]

theorem Timer.change_running (t : Timer) (dueTime period : Nat) (duration : Int)
    (h : t.running = true) : t.change dueTime period duration = none := by
  simp [Timer.change, h]

theorem Timer.start_ok (t : Timer) (T : Nat) (hr : t.running = false)
    (hc : t.completed = false) :
    t.start T = some { t with tick := T, running := true } := by
  simp [Timer.start, hr, hc]

/-- C11, the start contract: in any Timer state and for any start time `T`, `start(T)`
fails exactly when the timer is running or completed (not endless and nothing remaining);
when it succeeds it sets `tick` to `T` and `running` to true and leaves `dueTime`, `period`,
`duration` and `remaining` as they were. A timer given the duration Never, by the
constructor or by `change`, cannot be started. -/
theorem c11_start_contract (t : Timer) (T : Nat) :
    (t.start T = none ↔ t.running = true ∨ t.completed = true)
    ∧ (t.completed = true ↔ t.duration ≠ Duration.Endless ∧ t.remaining = 0)
    ∧ (∀ t1, t.start T = some t1 →
        t1.tick = T ∧ t1.running = true ∧ t1.dueTime = t.dueTime ∧ t1.period = t.period
          ∧ t1.duration = t.duration ∧ t1.remaining = t.remaining)
    ∧ (∀ dueTime period, (Timer.new dueTime period Duration.Never).start T = none)
    ∧ (∀ dueTime period t1, t.change dueTime period Duration.Never = some t1 →
        t1.start T = none) := by
  refine ⟨?_, Timer.completed_iff t, ?_, ?_, ?_⟩
  · unfold Timer.start
    cases hr : t.running <;> cases hc : t.completed <;> simp
  · intro t1 h
    unfold Timer.start at h
    split_ifs at h
    injection h with h
    subst h
    exact ⟨rfl, rfl, rfl, rfl, rfl, rfl⟩
  · intro dueTime period
    simp [Timer.new, Timer.start, Timer.completed, Timer.endless, Duration.Never,
      Duration.Endless]
  · intro dueTime period t1 h
    cases hr : t.running with
    | true => rw [Timer.change_running t _ _ _ hr] at h; cases h
    | false =>
      rw [Timer.change_stopped t _ _ _ hr] at h
      injection h with h
      subst h
      simp [Timer.start, Timer.completed, Timer.endless, Duration.Never, Duration.Endless]

/-- C12, the change contract: in any Timer state and for any arguments, `change` fails
exactly when the timer is running; when it succeeds it sets `dueTime` and `period` to the
arguments, sets `duration` and `remaining` to the duration argument when that is not
negative and to Endless otherwise, and leaves `running` and `tick` as they were; so a
completed, stopped timer can be started again after a `change` to a duration other than
Never. -/
theorem c12_change_contract (t : Timer) (dueTime period : Nat) (duration : Int) (T : Nat) :
    (t.change dueTime period duration = none ↔ t.running = true)
    ∧ (∀ t1, t.change dueTime period duration = some t1 →
        t1.dueTime = dueTime ∧ t1.period = period
          ∧ t1.duration = (if duration ≥ 0 then duration else Duration.Endless)
          ∧ t1.remaining = (if duration ≥ 0 then duration else Duration.Endless)
          ∧ t1.running = t.running ∧ t1.tick = t.tick)
    ∧ (t.completed = true → t.running = false → duration ≠ Duration.Never →
        ∃ t1 t2, t.change dueTime period duration = some t1 ∧ t1.start T = some t2) := by
  refine ⟨?_, ?_, ?_⟩
  · unfold Timer.change
    cases hr : t.running <;> simp
  · intro t1 h
    cases hr : t.running with
    | true => rw [Timer.change_running t _ _ _ hr] at h; cases h
    | false =>
      rw [Timer.change_stopped t _ _ _ hr] at h
      injection h with h
      subst h
      exact ⟨rfl, rfl, rfl, rfl, hr, rfl⟩
  · intro _ hr hne
    rw [Timer.change_stopped t _ _ _ hr]
    simp only [Duration.Never] at hne
    refine ⟨_, _, rfl, Timer.start_ok _ T hr ?_⟩
    by_cases hd : duration ≥ 0
    · simp [Timer.completed, Timer.endless, hd, hne, Duration.Endless]
    · simp [Timer.completed, Timer.endless, hd, Duration.Endless]

/-- The three-argument `restart` never fails at `change`; it fails at `start` exactly when
the new duration is Never. -/
theorem Timer.restart_eq (t : Timer) (now dueTime period : Nat) (duration : Int) :
    t.restart now dueTime period duration =
      if duration = Duration.Never then none
      else some
        { dueTime := dueTime
          period := period
          tick := now
          duration := if duration ≥ 0 then duration else Duration.Endless
          remaining := if duration ≥ 0 then duration else Duration.Endless
          running := true } := by
  unfold Timer.restart
  rw [Timer.change_stopped t.stop dueTime period duration rfl]
  simp only [Duration.Never]
  by_cases h0 : duration = 0
  · subst h0
    simp [Timer.start, Timer.stop, Timer.completed, Timer.endless, Duration.Endless]
  · rw [if_neg h0]
    by_cases hd : duration ≥ 0
    · simp [Timer.start, Timer.stop, Timer.completed, Timer.endless, Duration.Endless, hd, h0]
    · simp [Timer.start, Timer.stop, Timer.completed, Timer.endless, Duration.Endless, hd]

/-- With a clock pointer that is not null, `restart(dueTime, period, duration)` is the
restart of the other members at the reading of the clock; with a null one it fails. -/
theorem ClockedTimer.restart_of_clock (o : ClockedTimer) (now dueTime period : Nat)
    (duration : Int) :
    o.restart now dueTime period duration =
      match o.clock with
      | none => none
      | some c => (o.timer.restart now dueTime period duration).map
          (fun t => { timer := t, clock := some c }) := by
  unfold ClockedTimer.restart ClockedTimer.change ClockedTimer.stop Timer.restart
  simp only
  rw [Timer.change_stopped o.timer.stop dueTime period duration rfl]
  simp only [ClockedTimer.startNow, ClockedTimer.readClock, ClockedTimer.start]
  cases hc : o.clock with
  | none => rfl
  | some c =>
    simp only
    cases Timer.start _ now <;> rfl

theorem ClockedTimer.restartDelay_unfold (o : ClockedTimer) (now delay : Nat) :
    o.restartDelay now delay = o.restart now delay 0 Duration.Once := rfl

/-- With a clock pointer that is not null, `start()` is `start(now)` at the reading `now`. -/
theorem ClockedTimer.startNow_eq (o : ClockedTimer) (now : Nat) (h : o.clock ≠ none) :
    o.startNow now = o.start now := by
  unfold ClockedTimer.startNow ClockedTimer.readClock
  cases hc : o.clock with
  | none => exact absurd hc h
  | some c => rfl

/-- C13 as stated fails on a Timer whose clock pointer is null: in the state a move leaves
in its source, `restart(delay)` fails, and so does `restart(dueTime, period, duration)`
with a duration other than Never; the same after `change(delay, nullptr)` on a constructed
timer. -/
theorem c13_null_clock_counterexample :
    ClockedTimer.moved.restartDelay 50 5 = none
    ∧ ClockedTimer.moved.restart 50 5 0 Duration.Once = none
    ∧ Duration.Once ≠ Duration.Never
    ∧ (ClockedTimer.new 5 0 Duration.Once none).changeDelayClock 5 none
        = some ⟨⟨5, 0, 0, 1, 1, false⟩, none⟩
    ∧ ClockedTimer.restartDelay ⟨⟨5, 0, 0, 1, 1, false⟩, none⟩ 50 5 = none := by
  decide

/-- C13, amended: for every Timer state whose clock pointer is not null, and the value
`now` the clock returns, `restart(dueTime, period, duration)` gives the same result as
`stop()`, then `change(dueTime, period, duration)`, then `start(now)`. It fails exactly
when `duration` is Never; otherwise the timer ends running, with `tick = now`,
`remaining` the normalised duration and the same clock pointer. The call `restart(delay)`
does not fail and gives a running one-shot timer with `remaining = 1`, `period = 0` and
`dueTime = delay`. -/
theorem c13_restart_stop_change_start (o : ClockedTimer) (hclock : o.clock ≠ none)
    (now dueTime period : Nat) (duration : Int) (delay : Nat) :
    o.restart now dueTime period duration
      = (o.stop.change dueTime period duration).bind (fun o1 => o1.start now)
    ∧ (o.restart now dueTime period duration = none ↔ duration = Duration.Never)
    ∧ (∀ o1, o.restart now dueTime period duration = some o1 →
        o1.timer.running = true ∧ o1.timer.tick = now
          ∧ o1.timer.remaining = (if duration ≥ 0 then duration else Duration.Endless)
          ∧ o1.timer.duration = (if duration ≥ 0 then duration else Duration.Endless)
          ∧ o1.timer.dueTime = dueTime ∧ o1.timer.period = period
          ∧ o1.clock = o.clock)
    ∧ o.restartDelay now delay
      = (o.stop.change delay 0 Duration.Once).bind (fun o1 => o1.start now)
    ∧ (∃ o1, o.restartDelay now delay = some o1
        ∧ o1.timer.running = true ∧ o1.timer.remaining = 1 ∧ o1.timer.period = 0
        ∧ o1.timer.dueTime = delay ∧ o1.timer.duration = Duration.Once
        ∧ o1.timer.tick = now ∧ o1.clock = o.clock) := by
  have hbind : ∀ (d p : Nat) (D : Int),
      o.restart now d p D = (o.stop.change d p D).bind (fun o1 => o1.start now) := by
    intro d p D
    unfold ClockedTimer.restart
    cases hch : o.stop.change d p D with
    | none => rfl
    | some o1 =>
      have hc1 : o1.clock ≠ none := by
        unfold ClockedTimer.change at hch
        cases ht : o.stop.timer.change d p D with
        | none => simp [ht] at hch
        | some t =>
          simp only [ht, Option.some.injEq] at hch
          rw [← hch]
          exact hclock
      exact ClockedTimer.startNow_eq o1 now hc1
  obtain ⟨c, hc⟩ : ∃ c, o.clock = some c := by
    cases h : o.clock with
    | none => exact absurd h hclock
    | some c => exact ⟨c, rfl⟩
  have heq : ∀ (d p : Nat) (D : Int), o.restart now d p D =
      (o.timer.restart now d p D).map (fun t => { timer := t, clock := some c }) := by
    intro d p D
    rw [ClockedTimer.restart_of_clock, hc]
  refine ⟨hbind _ _ _, ?_, ?_, hbind _ _ _, ?_⟩
  · rw [heq, Timer.restart_eq]
    by_cases h0 : duration = Duration.Never
    · simp [h0]
    · simp [h0]
  · intro o1 h
    rw [heq, Timer.restart_eq] at h
    by_cases h0 : duration = Duration.Never
    · rw [if_pos h0] at h
      cases h
    · rw [if_neg h0] at h
      simp only [Option.map_some', Option.some.injEq] at h
      subst h
      exact ⟨rfl, rfl, rfl, rfl, rfl, rfl, hc.symm⟩
  · refine ⟨{ timer := ⟨delay, 0, now, 1, 1, true⟩, clock := some c }, ?_,
      rfl, rfl, rfl, rfl, rfl, rfl, hc.symm⟩
    rw [ClockedTimer.restartDelay_unfold, heq]
    have h := Timer.restartDelay_eq o.timer now delay
    unfold Timer.restartDelay Timer.changeDelay at h
    unfold Timer.restart
    rw [h]
    rfl

/-- C13 amended, on a timer constructed like the debounce timer (duration Never, default
clock), restarted at the clock value 50. -/
theorem c13_restart_stop_change_start_witness :
    (ClockedTimer.new 5 0 Duration.Never none).clock ≠ none
    ∧ ((ClockedTimer.new 5 0 Duration.Never none).restart 50 7 3 2
        = (((ClockedTimer.new 5 0 Duration.Never none).stop.change 7 3 2).bind
            (fun o1 => o1.start 50))
      ∧ ((ClockedTimer.new 5 0 Duration.Never none).restart 50 7 3 2 = none
          ↔ (2 : Int) = Duration.Never)
      ∧ (∀ o1, (ClockedTimer.new 5 0 Duration.Never none).restart 50 7 3 2 = some o1 →
          o1.timer.running = true ∧ o1.timer.tick = 50
            ∧ o1.timer.remaining = (if (2 : Int) ≥ 0 then 2 else Duration.Endless)
            ∧ o1.timer.duration = (if (2 : Int) ≥ 0 then 2 else Duration.Endless)
            ∧ o1.timer.dueTime = 7 ∧ o1.timer.period = 3
            ∧ o1.clock = (ClockedTimer.new 5 0 Duration.Never none).clock)
      ∧ (ClockedTimer.new 5 0 Duration.Never none).restartDelay 50 5
        = (((ClockedTimer.new 5 0 Duration.Never none).stop.change 5 0 Duration.Once).bind
            (fun o1 => o1.start 50))
      ∧ (∃ o1, (ClockedTimer.new 5 0 Duration.Never none).restartDelay 50 5 = some o1
          ∧ o1.timer.running = true ∧ o1.timer.remaining = 1 ∧ o1.timer.period = 0
          ∧ o1.timer.dueTime = 5 ∧ o1.timer.duration = Duration.Once
          ∧ o1.timer.tick = 50
          ∧ o1.clock = (ClockedTimer.new 5 0 Duration.Never none).clock)) :=
  ⟨by decide,
    c13_restart_stop_change_start (ClockedTimer.new 5 0 Duration.Never none) (by decide)
      50 7 3 2 5⟩

/-! ## Wraparound: readiness and the wrapped elapsed time -/

/-- The wrapped difference is the value that, added to the subtrahend, gives back the
minuend on the `w`-bit counter. -/
theorem wsub_add_modEq (w a b : Nat) : wsub w a b + b ≡ a [MOD 2 ^ w] := by
  have hm : 0 < 2 ^ w := by positivity
  have hb : b % 2 ^ w < 2 ^ w := Nat.mod_lt _ hm
  have h1 : wsub w a b ≡ a % 2 ^ w + (2 ^ w - b % 2 ^ w) [MOD 2 ^ w] := Nat.mod_modEq _ _
  have h2 : b ≡ b % 2 ^ w [MOD 2 ^ w] := (Nat.mod_modEq b _).symm
  have h3 : a % 2 ^ w + (2 ^ w - b % 2 ^ w) + b % 2 ^ w = a % 2 ^ w + 2 ^ w := by omega
  have h4 : a % 2 ^ w + 2 ^ w ≡ a [MOD 2 ^ w] := by
    unfold Nat.ModEq
    rw [Nat.add_mod_right, Nat.mod_mod]
  exact ((h1.add h2).trans (by rw [h3])).trans h4

/-- Two wrapped differences that give back congruent minuends from the same subtrahend are
equal. -/
theorem wsub_unique (w a b r : Nat) (hr : r < 2 ^ w) (h : r + b ≡ a [MOD 2 ^ w]) :
    wsub w a b = r := by
  have h1 : wsub w a b + b ≡ r + b [MOD 2 ^ w] := (wsub_add_modEq w a b).trans h.symm
  exact Nat.ModEq.eq_of_lt_of_lt (Nat.ModEq.add_right_cancel' b h1) (wsub_lt w a b) hr

/-- Shifting both operands by the same amount leaves the wrapped difference unchanged. -/
theorem wsub_shift (w a b k : Nat) : wsub w (a + k) (b + k) = wsub w a b := by
  apply wsub_unique w _ _ _ (wsub_lt w a b)
  have h := (wsub_add_modEq w a b).add_right k
  rw [Nat.add_assoc] at h
  exact h

/-- Adding the period before subtracting the anchor is adding it to the wrapped elapsed
time. -/
theorem wsub_wadd (w a b p : Nat) : wsub w (wadd w a p) b = wadd w (wsub w a b) p := by
  apply wsub_unique w _ _ _ (Nat.mod_lt _ (by positivity))
  have h1 : wadd w (wsub w a b) p ≡ wsub w a b + p [MOD 2 ^ w] := Nat.mod_modEq _ _
  have h2 : wadd w a p ≡ a + p [MOD 2 ^ w] := Nat.mod_modEq _ _
  have h3 : wsub w a b + p + b ≡ a + p [MOD 2 ^ w] := by
    have h := (wsub_add_modEq w a b).add_right p
    rw [Nat.add_right_comm] at h
    exact h
  exact ((h1.add_right b).trans h3).trans h2.symm

/-- The readiness test in terms of the wrapped elapsed time `(now - tick) mod 2 ^ w`. -/
theorem Timer.ready_elapsed (w : Nat) (t : Timer) (now : Nat) :
    t.ready w now
      = decide (wadd w t.dueTime t.period ≤ wadd w (wsub w now t.tick) t.period) := by
  unfold Timer.ready
  rw [wsub_wadd]

/-- The readiness test is unchanged when the update time and the anchor are shifted by
the same amount on the `w`-bit counter. -/
theorem Timer.ready_shift (w : Nat) (t : Timer) (now k : Nat) :
    Timer.ready w { t with tick := (t.tick + k) % 2 ^ w } ((now + k) % 2 ^ w)
      = t.ready w now := by
  rw [Timer.ready_elapsed, Timer.ready_elapsed]
  simp only [wsub_mod_left, wsub_mod_right, wsub_shift]

/-- C14 as stated fails: on a 32-bit clock, a timer with due time 5 anchored at 0 is ready
at 10, but after the shift of `now`, `tick` and `dueTime` by 10 (due time 15, anchor 10,
update at 20) it is not. -/
theorem c14_shift_counterexample :
    Timer.ready 32 ⟨(5 + 10) % 2 ^ 32, 0, (0 + 10) % 2 ^ 32, 1, 1, true⟩ ((10 + 10) % 2 ^ 32)
      ≠ Timer.ready 32 ⟨5, 0, 0, 1, 1, true⟩ 10 := by
  decide

/-- C14, amended: the fire decision `ready` is unchanged by a uniform shift of `now` and
`tick` modulo `2 ^ w`, with `dueTime` and `period` left as they are. The due time is a
duration, not a clock value: shifting it as well gives the decision of the unshifted clock
values for the shifted due time. -/
theorem c14_wraparound_invariance (w : Nat) (t : Timer) (now k : Nat) :
    Timer.ready w { t with tick := (t.tick + k) % 2 ^ w } ((now + k) % 2 ^ w) = t.ready w now
    ∧ Timer.ready w
        { t with dueTime := (t.dueTime + k) % 2 ^ w, tick := (t.tick + k) % 2 ^ w }
        ((now + k) % 2 ^ w)
      = Timer.ready w { t with dueTime := (t.dueTime + k) % 2 ^ w } now :=
  ⟨Timer.ready_shift w t now k,
    Timer.ready_shift w { t with dueTime := (t.dueTime + k) % 2 ^ w } now k⟩

/-- C15, clock-origin independence: the readiness test, and so the value `update` returns,
is the same on `((now + k) mod 2 ^ w, (tick + k) mod 2 ^ w)` as on `(now, tick)`, with
`dueTime` and `period` unchanged; two timers with the same `dueTime`, `period` and
`running` return the same value from `update` whenever the wrapped differences
`now - tick` agree. -/
theorem c15_clock_origin_independence (w : Nat) (t : Timer) (now k : Nat) :
    Timer.ready w { t with tick := (t.tick + k) % 2 ^ w } ((now + k) % 2 ^ w) = t.ready w now
    ∧ (Timer.update w { t with tick := (t.tick + k) % 2 ^ w } ((now + k) % 2 ^ w)).2
        = (t.update w now).2
    ∧ ∀ (t1 : Timer) (now1 : Nat), t1.dueTime = t.dueTime → t1.period = t.period →
        t1.running = t.running → wsub w now1 t1.tick = wsub w now t.tick →
        (t1.update w now1).2 = (t.update w now).2 := by
  have hupd : ∀ (s : Timer) (x : Nat), (s.update w x).2 = (s.running && s.ready w x) := by
    intro s x
    unfold Timer.update
    cases s.running && s.ready w x <;> rfl
  refine ⟨Timer.ready_shift w t now k, ?_, ?_⟩
  · rw [hupd, hupd, Timer.ready_shift]
  · intro t1 now1 hd hp hr he
    rw [hupd, hupd, Timer.ready_elapsed, Timer.ready_elapsed, hd, hp, hr, he]

/-- C16 as stated fails: on a 32-bit clock, a timer with due time 5 and period 1000 started
at 0 does not fire at the update made at `2 ^ 32 - 500`, although the elapsed time is far
beyond the due time (elapsed + period wraps). -/
theorem c16_elapsed_counterexample :
    (Timer.new 5 1000 Duration.Endless).start 0 = some ⟨5, 1000, 0, -1, -1, true⟩
    ∧ (Timer.update 32 ⟨5, 1000, 0, -1, -1, true⟩ 4294966796).2 = false
    ∧ 5 ≤ wsub 32 4294966796 0 := by
  decide

/-- With a due time and a period whose sum wraps, the first update fires before the due time
has elapsed. -/
theorem Timer.ready_early_example :
    (Timer.update 32 ⟨4294967295, 1, 0, -1, -1, true⟩ 0).2 = true
    ∧ ¬ (4294967295 ≤ wsub 32 0 0) := by
  decide

/-- C16, amended: for `w`-bit `dueTime` and `period`, a timer just started at `T0` and an
update time `now` with elapsed time `e = (now - T0) mod 2 ^ w`: when `dueTime + period` and
`e + period` are both below `2 ^ w`, or both at least `2 ^ w`, the first `update(now)`
returns true exactly when `e` is at least `dueTime`. -/
theorem c16_readiness_elapsed (w : Nat) (t0 t : Timer) (T0 now : Nat)
    (hstart : t0.start T0 = some t)
    (hd : t0.dueTime < 2 ^ w) (hp : t0.period < 2 ^ w)
    (hside : t0.dueTime + t0.period < 2 ^ w ↔ wsub w now T0 + t0.period < 2 ^ w) :
    (t.update w now).2 = true ↔ t0.dueTime ≤ wsub w now T0 := by
  have ht : t = { t0 with tick := T0, running := true } := by
    unfold Timer.start at hstart
    split_ifs at hstart
    injection hstart with h
    exact h.symm
  have he : wsub w now T0 < 2 ^ w := wsub_lt w now T0
  subst ht
  unfold Timer.update
  simp only [Bool.true_and]
  rw [Timer.ready_elapsed]
  simp only
  generalize wsub w now T0 = e at *
  unfold wadd
  by_cases hlow : t0.dueTime + t0.period < 2 ^ w
  · have hlow1 := hside.mp hlow
    rw [Nat.mod_eq_of_lt hlow, Nat.mod_eq_of_lt hlow1]
    by_cases hle : t0.dueTime ≤ e
    · simp [hle]
    · simp [hle]
  · have hhigh1 : ¬ (e + t0.period < 2 ^ w) := fun h => hlow (hside.mpr h)
    rw [Nat.mod_eq_sub_mod (by omega), Nat.mod_eq_of_lt (by omega),
      Nat.mod_eq_sub_mod (by omega : e + t0.period ≥ 2 ^ w), Nat.mod_eq_of_lt (by omega)]
    by_cases hle : t0.dueTime ≤ e
    · have : t0.dueTime + t0.period - 2 ^ w ≤ e + t0.period - 2 ^ w := by omega
      simp [hle, this]
    · have : ¬ (t0.dueTime + t0.period - 2 ^ w ≤ e + t0.period - 2 ^ w) := by omega
      simp [hle, this]

/-- C16 amended, on a 32-bit clock: due time 5, period 1000, started at `2 ^ 32 - 3` and
updated at 2 after the counter wrapped (elapsed time 5). -/
theorem c16_readiness_elapsed_witness :
    (Timer.update 32 ⟨5, 1000, 4294967293, -1, -1, true⟩ 2).2 = true
      ↔ 5 ≤ wsub 32 2 4294967293 :=
  c16_readiness_elapsed 32 (Timer.new 5 1000 Duration.Endless) ⟨5, 1000, 4294967293, -1, -1, true⟩
    4294967293 2 (by decide) (by decide) (by decide) (by decide)

/-! ## Button: invariants along the polling loop -/

/-- The levels `upState` and `downState` are not changed by `update()`. -/
theorem Button.update_levels (w : Nat) (b : Button) (now : Nat) (pin : ButtonPinStatus)
    (o : Outcome) (h : b.update w now pin = some o) :
    o.button.upState = b.upState ∧ o.button.downState = b.downState := by
  rw [Button.update_eq] at h
  injection h with h
  subst h
  split_ifs <;> exact ⟨rfl, rfl⟩

/-- The polling loop never fails and does not change the levels. -/
theorem Button.updates_levels (w : Nat) (polls : List (Nat × ButtonPinStatus)) :
    ∀ b : Button, ∃ b1 evs, Button.updates w b polls = some (b1, evs)
      ∧ b1.upState = b.upState ∧ b1.downState = b.downState := by
  induction polls with
  | nil => exact fun b => ⟨b, [], rfl, rfl, rfl⟩
  | cons p rest ih =>
    intro b
    obtain ⟨now, pin⟩ := p
    obtain ⟨o, ho⟩ := Button.update_total w b now pin
    obtain ⟨hu, hd⟩ := Button.update_levels w b now pin o ho
    obtain ⟨b1, evs, hrun, hu1, hd1⟩ := ih o.button
    refine ⟨b1, o.event :: evs, ?_, hu1.trans hu, hd1.trans hd⟩
    rw [Button.updates_cons w b now pin rest o ho, hrun]
    rfl

/-- With two levels that differ, the committed level is one of them and not both. -/
theorem Button.prevState_one_of (b : Button) (hwf : b.upState ≠ b.downState) :
    (b.prevState = b.upState ∨ b.prevState = b.downState)
      ∧ ¬ (b.prevState = b.upState ∧ b.prevState = b.downState) := by
  cases hp : b.prevState <;> cases hu : b.upState <;> cases hd : b.downState <;> simp_all

/-- C17, the Button level invariant: `prevState` starts as `upState`; in every state reached
from construction (either polarity) by `update()` calls, `upState` and `downState` are the
two different levels the constructor set (the pressed level is the active level), and
`prevState` equals exactly one of them, whether or not the debounce timer is running. -/
theorem c17_level_invariant (w : Nat) (activeLevel : ButtonPinStatus) (longPressMs : Nat)
    (polls : List (Nat × ButtonPinStatus)) :
    (Button.new activeLevel longPressMs).prevState = (Button.new activeLevel longPressMs).upState
    ∧ (Button.new activeLevel longPressMs).downState = activeLevel
    ∧ ∃ b1 evs, Button.updates w (Button.new activeLevel longPressMs) polls = some (b1, evs)
        ∧ b1.upState = (Button.new activeLevel longPressMs).upState
        ∧ b1.downState = (Button.new activeLevel longPressMs).downState
        ∧ b1.upState ≠ b1.downState
        ∧ (b1.prevState = b1.upState ∨ b1.prevState = b1.downState)
        ∧ ¬ (b1.prevState = b1.upState ∧ b1.prevState = b1.downState) := by
  refine ⟨Button.new_prevState _ _, by cases activeLevel <;> rfl, ?_⟩
  obtain ⟨b1, evs, hrun, hu, hd⟩ :=
    Button.updates_levels w polls (Button.new activeLevel longPressMs)
  have hwf : b1.upState ≠ b1.downState := by
    rw [hu, hd]
    exact Button.new_levels _ _
  exact ⟨b1, evs, hrun, hu, hd, hwf, Button.prevState_one_of b1 hwf⟩

/-- The debounce timer after one `update()`: a running timer is only passed through
`Timer::update`; a stopped one is restarted when the sample differs from the committed
level and is left alone otherwise. -/
theorem Button.update_timer (w : Nat) (b : Button) (now : Nat) (pin : ButtonPinStatus)
    (o : Outcome) (h : b.update w now pin = some o) :
    o.button.debounceTimer =
      if b.debounceTimer.running = true then (b.debounceTimer.update w now).1
      else if b.prevState ≠ pin then ⟨DebounceDelayDuration, 0, now, 1, 1, true⟩
      else b.debounceTimer := by
  rw [Button.update_eq] at h
  injection h with h
  subst h
  cases hr : b.debounceTimer.running with
  | false =>
    simp only [Bool.false_eq_true, if_false, if_true]
    split_ifs <;> rfl
  | true =>
    simp only [Bool.true_eq_false, if_false, if_true]
    cases hrd : b.debounceTimer.ready w now with
    | false => simp [Timer.update, hr, hrd]
    | true =>
      simp only [if_true]
      split_ifs <;> simp [Timer.update, hr, hrd]

/-- C18, the Button never violates the Timer contract: the debounce timer is constructed
with duration Never, so completed and not running; in every state reached from
construction by `update()` calls with arbitrary samples and clock values, the next
`update()` does not fail; it passes a running timer through `Timer::update` only and
restarts a stopped one only when the sample differs from the committed level; and a
`restart(DebounceDelayDuration)`, from any timer state, stops the timer, reconfigures it
to a stopped one-shot with `remaining = 1` that is not completed, and starts it. -/
theorem c18_no_contract_violation (w : Nat) (activeLevel : ButtonPinStatus)
    (longPressMs : Nat) (polls : List (Nat × ButtonPinStatus)) :
    (Button.new activeLevel longPressMs).debounceTimer
        = Timer.new DebounceDelayDuration 0 Duration.Never
    ∧ (Button.new activeLevel longPressMs).debounceTimer.completed = true
    ∧ (Button.new activeLevel longPressMs).debounceTimer.running = false
    ∧ (∃ b1 evs, Button.updates w (Button.new activeLevel longPressMs) polls = some (b1, evs)
        ∧ ∀ now pin, ∃ o, b1.update w now pin = some o
          ∧ o.button.debounceTimer =
              if b1.debounceTimer.running = true then (b1.debounceTimer.update w now).1
              else if b1.prevState ≠ pin then ⟨DebounceDelayDuration, 0, now, 1, 1, true⟩
              else b1.debounceTimer)
    ∧ (∀ (t : Timer) (now : Nat), ∃ t1 t2,
        t.stop.changeDelay DebounceDelayDuration = some t1
        ∧ t1.running = false ∧ t1.remaining = 1 ∧ t1.duration = Duration.Once
        ∧ t1.completed = false
        ∧ t1.start now = some t2
        ∧ t.restartDelay now DebounceDelayDuration = some t2
        ∧ t2 = ⟨DebounceDelayDuration, 0, now, 1, 1, true⟩) := by
  refine ⟨by cases activeLevel <;> rfl, by cases activeLevel <;> rfl,
    Button.new_running _ _, ?_, ?_⟩
  · obtain ⟨b1, evs, hrun, _, _⟩ :=
      Button.updates_levels w polls (Button.new activeLevel longPressMs)
    refine ⟨b1, evs, hrun, fun now pin => ?_⟩
    obtain ⟨o, ho⟩ := Button.update_total w b1 now pin
    exact ⟨o, ho, Button.update_timer w b1 now pin o ho⟩
  · intro t now
    have hc : t.stop.changeDelay DebounceDelayDuration
        = some { t.stop with
            dueTime := DebounceDelayDuration, period := 0,
            duration := Duration.Once, remaining := Duration.Once } := by
      unfold Timer.changeDelay
      rw [Timer.change_stopped t.stop _ _ _ rfl]
      rfl
    refine ⟨_, _, hc, rfl, rfl, rfl, by
      simp [Timer.completed, Timer.endless, Duration.Once, Duration.Endless],
      Timer.start_ok _ now rfl (by
        simp [Timer.completed, Timer.endless, Duration.Once, Duration.Endless]),
      ?_, rfl⟩
    rw [Timer.restartDelay_eq]
    rfl

/-- In a legal run the Press and Release events alternate, and the first of them is a
Release when the run starts held and a Press otherwise. -/
theorem legalEvents_alternate (evs : List ButtonEvent) :
    ∀ held flagged, legalEvents held flagged evs →
      (evs.filter ButtonEvent.isEdge).Chain' (fun a b => a ≠ b)
        ∧ ∀ e, (evs.filter ButtonEvent.isEdge).head? = some e →
            e = if held then ButtonEvent.Release else ButtonEvent.Press := by
  induction evs with
  | nil =>
    intro held flagged _
    exact ⟨List.chain'_nil, fun e he => by cases he⟩
  | cons e0 rest ih =>
    intro held flagged h
    cases e0 with
    | None =>
      have hf : (ButtonEvent.None :: rest).filter ButtonEvent.isEdge
          = rest.filter ButtonEvent.isEdge := rfl
      rw [hf]
      exact ih held flagged h
    | Hold =>
      have hf : (ButtonEvent.Hold :: rest).filter ButtonEvent.isEdge
          = rest.filter ButtonEvent.isEdge := rfl
      rw [hf]
      exact ih held flagged h.2
    | LongPress =>
      have hf : (ButtonEvent.LongPress :: rest).filter ButtonEvent.isEdge
          = rest.filter ButtonEvent.isEdge := rfl
      rw [hf]
      obtain ⟨h1, h2⟩ := ih true true h.2.2
      refine ⟨h1, fun e he => ?_⟩
      rw [h.1]
      exact h2 e he
    | Press =>
      have hf : (ButtonEvent.Press :: rest).filter ButtonEvent.isEdge
          = ButtonEvent.Press :: rest.filter ButtonEvent.isEdge := rfl
      rw [hf]
      obtain ⟨h1, h2⟩ := ih true false h.2
      refine ⟨?_, fun e he => ?_⟩
      · rw [List.chain'_cons']
        refine ⟨fun y hy => ?_, h1⟩
        rw [h2 y hy]
        decide
      · rw [h.1]
        simp only [List.head?_cons, Option.some.injEq] at he
        rw [← he]
        rfl
    | Release =>
      have hf : (ButtonEvent.Release :: rest).filter ButtonEvent.isEdge
          = ButtonEvent.Release :: rest.filter ButtonEvent.isEdge := rfl
      rw [hf]
      obtain ⟨h1, h2⟩ := ih false false h.2
      refine ⟨?_, fun e he => ?_⟩
      · rw [List.chain'_cons']
        refine ⟨fun y hy => ?_, h1⟩
        rw [h2 y hy]
        decide
      · rw [h.1]
        simp only [List.head?_cons, Option.some.injEq] at he
        rw [← he]
        rfl

/-- In a legal run a Hold or LongPress comes either in a run that starts held, with no
Release before it, or after a Press with no Release in between. -/
theorem legalEvents_held_event (e : ButtonEvent)
    (he : e = ButtonEvent.Hold ∨ e = ButtonEvent.LongPress) (pre post : List ButtonEvent) :
    ∀ held flagged, legalEvents held flagged (pre ++ e :: post) →
      (held = true ∧ ButtonEvent.Release ∉ pre)
        ∨ ∃ pre1 mid, pre = pre1 ++ ButtonEvent.Press :: mid ∧ ButtonEvent.Release ∉ mid := by
  induction pre with
  | nil =>
    intro held flagged h
    rcases he with rfl | rfl
    · exact Or.inl ⟨h.1, by simp⟩
    · exact Or.inl ⟨h.1, by simp⟩
  | cons e0 pre ih =>
    intro held flagged h
    have key : ∀ held1 flagged1, legalEvents held1 flagged1 (pre ++ e :: post) →
        (held1 = true → e0 ≠ ButtonEvent.Press → e0 ≠ ButtonEvent.Release → held = true) →
        (e0 = ButtonEvent.Release → held1 = false) →
        (held = true ∧ ButtonEvent.Release ∉ e0 :: pre)
          ∨ ∃ pre1 mid, e0 :: pre = pre1 ++ ButtonEvent.Press :: mid
              ∧ ButtonEvent.Release ∉ mid := by
      intro held1 flagged1 h1 hkeep hrel
      rcases ih held1 flagged1 h1 with ⟨hh, hnr⟩ | ⟨pre1, mid, hsplit, hnr⟩
      · by_cases hP : e0 = ButtonEvent.Press
        · exact Or.inr ⟨[], pre, by rw [hP]; rfl, hnr⟩
        · by_cases hR : e0 = ButtonEvent.Release
          · rw [hrel hR] at hh
            exact absurd hh (by decide)
          · refine Or.inl ⟨hkeep hh hP hR, ?_⟩
            simp only [List.mem_cons, not_or]
            exact ⟨fun h => hR h.symm, hnr⟩
      · exact Or.inr ⟨e0 :: pre1, mid, by rw [hsplit]; rfl, hnr⟩
    cases e0 with
    | None => exact key held flagged h (fun hh _ _ => hh) (fun he => by cases he)
    | Press => exact key true false h.2 (fun _ hP _ => absurd rfl hP) (fun he => by cases he)
    | Release => exact key false false h.2 (fun _ _ hR => absurd rfl hR) (fun _ => rfl)
    | Hold => exact key held flagged h.2 (fun hh _ _ => hh) (fun he => by cases he)
    | LongPress => exact key true true h.2.2 (fun _ _ _ => h.1) (fun he => by cases he)

/-- The committed level changes only in an `update()` that returns Press or Release. -/
theorem Button.update_prevState (w : Nat) (b : Button) (now : Nat) (pin : ButtonPinStatus)
    (o : Outcome) (hwf : b.upState ≠ b.downState) (h : b.update w now pin = some o)
    (hP : o.event ≠ ButtonEvent.Press) (hR : o.event ≠ ButtonEvent.Release) :
    o.button.prevState = b.prevState := by
  rw [Button.update_eq] at h
  injection h with h
  subst h
  split_ifs at hP hR ⊢ with h1 h2 h3 h4 h5 h6 h7
  · rfl
  · rfl
  · rfl
  · rfl
  · exact absurd rfl hP
  · exact absurd rfl hR
  · show pin = b.prevState
    cases hp : b.prevState <;> cases pin <;> cases hu : b.upState <;>
      cases hd : b.downState <;> simp_all
  · rfl

/-- C19, Press and Release alternate: for a Button polled from its construction with
arbitrary samples and clock values, the Press and Release events returned alternate and
the first of them is a Press; every Hold and LongPress comes after a Press with no
Release in between; and an `update()` that returns neither Press nor Release leaves
`prevState` as it was. -/
theorem c19_press_release_alternate (w : Nat) (activeLevel : ButtonPinStatus)
    (longPressMs : Nat) (polls : List (Nat × ButtonPinStatus)) :
    ∃ b1 evs, Button.updates w (Button.new activeLevel longPressMs) polls = some (b1, evs)
      ∧ (evs.filter ButtonEvent.isEdge).Chain' (fun a b => a ≠ b)
      ∧ (∀ e, (evs.filter ButtonEvent.isEdge).head? = some e → e = ButtonEvent.Press)
      ∧ (∀ pre e post, evs = pre ++ e :: post →
          e = ButtonEvent.Hold ∨ e = ButtonEvent.LongPress →
          ∃ pre1 mid, pre = pre1 ++ ButtonEvent.Press :: mid ∧ ButtonEvent.Release ∉ mid)
      ∧ (∀ pre now pin post, polls = pre ++ (now, pin) :: post →
          ∃ b0 evs0 o, Button.updates w (Button.new activeLevel longPressMs) pre
              = some (b0, evs0)
            ∧ b0.update w now pin = some o
            ∧ (o.event ≠ ButtonEvent.Press → o.event ≠ ButtonEvent.Release →
                o.button.prevState = b0.prevState)) := by
  obtain ⟨b1, evs, hrun, hlegal⟩ :=
    Button.updates_legal w polls (Button.new activeLevel longPressMs) (Button.new_levels _ _)
  have hheld : decide ((Button.new activeLevel longPressMs).prevState
      = (Button.new activeLevel longPressMs).downState) = false := by
    rw [Button.new_prevState]
    exact decide_eq_false (Button.new_levels _ _)
  rw [hheld] at hlegal
  obtain ⟨halt, hfirst⟩ := legalEvents_alternate evs _ _ hlegal
  refine ⟨b1, evs, hrun, halt, fun e he => by simpa using hfirst e he, ?_, ?_⟩
  · intro pre e post hsplit he
    rw [hsplit] at hlegal
    rcases legalEvents_held_event e he pre post _ _ hlegal with ⟨hh, _⟩ | h
    · exact absurd hh (by decide)
    · exact h
  · intro pre now pin post _
    obtain ⟨b0, evs0, hpre, hu, hd⟩ :=
      Button.updates_levels w pre (Button.new activeLevel longPressMs)
    obtain ⟨o, ho⟩ := Button.update_total w b0 now pin
    have hwf : b0.upState ≠ b0.downState := by
      rw [hu, hd]
      exact Button.new_levels _ _
    exact ⟨b0, evs0, o, hpre, ho, Button.update_prevState w b0 now pin o hwf ho⟩

/-! ## Timer: the state invariant -/

theorem Timer.ok_of_config (dueTime period tick : Nat) (duration : Int) :
    Timer.Ok
      { dueTime := dueTime
        period := period
        tick := tick
        duration := if duration ≥ 0 then duration else Duration.Endless
        remaining := if duration ≥ 0 then duration else Duration.Endless
        running := false } := by
  refine ⟨?_, fun h => by cases h⟩
  by_cases hd : duration ≥ 0
  · right
    show 0 ≤ (if duration ≥ 0 then duration else Duration.Endless)
      ∧ (if duration ≥ 0 then duration else Duration.Endless)
        ≤ (if duration ≥ 0 then duration else Duration.Endless)
    rw [if_pos hd]
    exact ⟨hd, le_refl _⟩
  · left
    show (if duration ≥ 0 then duration else Duration.Endless) = -1
      ∧ (if duration ≥ 0 then duration else Duration.Endless) = -1
    rw [if_neg hd]
    exact ⟨rfl, rfl⟩

theorem Timer.stop_ok (t : Timer) (h : t.Ok) : t.stop.Ok :=
  ⟨h.1, fun hr => by cases hr⟩

theorem Timer.start_keeps_ok (t t1 : Timer) (T : Nat) (h : t.Ok) (hs : t.start T = some t1) :
    t1.Ok := by
  unfold Timer.start at hs
  split_ifs at hs with hr hc
  injection hs with hs
  subst hs
  refine ⟨h.1, fun _ => ?_⟩
  simpa [Timer.completed, Timer.endless] using hc

theorem Timer.execute_ok (w : Nat) (t : Timer) (h : t.Ok) (hr : t.running = true) :
    (t.execute w).Ok := by
  obtain ⟨hrange, hrun⟩ := h
  have hnc := hrun hr
  unfold Timer.execute
  by_cases he : t.duration = Duration.Endless
  · have hend : Timer.endless { t with tick := wadd w t.tick t.period } = true := by
      simp [Timer.endless, he]
    simp only [hend, if_true]
    refine ⟨hrange, fun _ => ?_⟩
    simp [Timer.completed, Timer.endless, he]
  · have hend : Timer.endless { t with tick := wadd w t.tick t.period } = false := by
      simp [Timer.endless, he]
    simp only [hend, Bool.false_eq_true, if_false]
    have hd : t.duration ≠ -1 := he
    have hrem : 0 ≤ t.remaining ∧ t.remaining ≤ t.duration := by
      rcases hrange with h1 | h1
      · exact absurd h1.1 hd
      · exact h1
    have hne : t.remaining ≠ 0 := by
      intro h0
      simp [Timer.completed, Timer.endless, he, h0] at hnc
    by_cases hz : t.remaining - 1 = 0
    · have hb : (t.remaining - 1 == 0) = true := by simpa using hz
      simp only [hb, if_true]
      refine ⟨Or.inr ⟨?_, ?_⟩, fun hr1 => by cases hr1⟩
      · show 0 ≤ t.remaining - 1
        omega
      · show t.remaining - 1 ≤ t.duration
        omega
    · have hb : (t.remaining - 1 == 0) = false := by simpa using hz
      simp only [hb, Bool.false_eq_true, if_false]
      refine ⟨Or.inr ⟨?_, ?_⟩, fun _ => ?_⟩
      · show 0 ≤ t.remaining - 1
        omega
      · show t.remaining - 1 ≤ t.duration
        omega
      · simp only [Timer.completed, Timer.endless]
        have : (t.remaining - 1 == 0) = false := hb
        simp [this]

theorem Timer.update_keeps_ok (w : Nat) (t : Timer) (now : Nat) (h : t.Ok) :
    (t.update w now).1.Ok := by
  unfold Timer.update
  split_ifs with hc
  · simp only [Bool.and_eq_true] at hc
    exact Timer.execute_ok w t h hc.1
  · exact h

theorem Timer.change_keeps_ok (t t1 : Timer) (dueTime period : Nat) (duration : Int)
    (hc : t.change dueTime period duration = some t1) : t1.Ok := by
  cases hr : t.running with
  | true => rw [Timer.change_running t _ _ _ hr] at hc; cases hc
  | false =>
    rw [Timer.change_stopped t _ _ _ hr] at hc
    injection hc with hc
    subst hc
    rw [hr]
    exact Timer.ok_of_config _ _ _ _

/-- Every reachable Timer state satisfies the invariant `Timer.Ok`. -/
theorem Timer.Reachable.state_ok (w : Nat) (t : Timer) (h : Timer.Reachable w t) : t.Ok := by
  induction h with
  | new dueTime period duration => exact Timer.ok_of_config _ _ _ _
  | moved => exact ⟨Or.inr ⟨le_refl _, le_refl _⟩, fun h => by cases h⟩
  | start t T t1 _ hs ih => exact Timer.start_keeps_ok t t1 T ih hs
  | stop t _ ih => exact Timer.stop_ok t ih
  | change t dueTime period duration t1 _ hc _ =>
    exact Timer.change_keeps_ok t t1 dueTime period duration hc
  | restart t now dueTime period duration t1 _ hs ih =>
    unfold Timer.restart at hs
    cases hc : t.stop.change dueTime period duration with
    | none => simp [hc] at hs
    | some t2 =>
      simp only [hc] at hs
      exact Timer.start_keeps_ok t2 t1 now
        (Timer.change_keeps_ok t.stop t2 dueTime period duration hc) hs
  | restartDelay t now delay t1 _ hs ih =>
    unfold Timer.restartDelay at hs
    cases hc : t.stop.changeDelay delay with
    | none => simp [hc] at hs
    | some t2 =>
      simp only [hc] at hs
      exact Timer.start_keeps_ok t2 t1 now
        (Timer.change_keeps_ok t.stop t2 delay 0 Duration.Once hc) hs
  | update t now _ ih => exact Timer.update_keeps_ok w t now ih

/-- C20, the Timer state invariant: in every Timer state reachable from a constructor by
`start`, `stop`, `change`, `restart` and `update` calls that do not fail, exactly one of
`running()`, `paused()` and `completed()` holds; an endless timer has
`duration = remaining = -1`, and any other has `0 ≤ remaining ≤ duration`. -/
theorem c20_timer_state_invariant (w : Nat) (t : Timer) (h : Timer.Reachable w t) :
    ((t.running = true ∧ t.paused = false ∧ t.completed = false)
      ∨ (t.running = false ∧ t.paused = true ∧ t.completed = false)
      ∨ (t.running = false ∧ t.paused = false ∧ t.completed = true))
    ∧ (t.endless = true → t.duration = -1 ∧ t.remaining = -1)
    ∧ (t.endless = false → 0 ≤ t.remaining ∧ t.remaining ≤ t.duration) := by
  obtain ⟨hrange, hrun⟩ := Timer.Reachable.state_ok w t h
  refine ⟨?_, ?_, ?_⟩
  · cases hr : t.running with
    | true =>
      have hc := hrun hr
      exact Or.inl ⟨rfl, by simp [Timer.paused, hr], hc⟩
    | false =>
      cases hc : t.completed with
      | true => exact Or.inr (Or.inr ⟨rfl, by simp [Timer.paused, hr, hc], rfl⟩)
      | false => exact Or.inr (Or.inl ⟨rfl, by simp [Timer.paused, hr, hc], rfl⟩)
  · intro he
    have hd : t.duration = -1 := by simpa [Timer.endless, Duration.Endless] using he
    rcases hrange with h1 | h1
    · exact h1
    · refine ⟨hd, ?_⟩
      omega
  · intro he
    have hd : t.duration ≠ -1 := by simpa [Timer.endless, Duration.Endless] using he
    rcases hrange with h1 | h1
    · exact absurd h1.1 hd
    · exact h1

/-- C20 on a 32-bit clock: the timer with due time 5, period 10 and three firings, started
at 100 and updated at 105. -/
theorem c20_timer_state_invariant_witness :
    (((Timer.update 32 ⟨5, 10, 100, 3, 3, true⟩ 105).1.running = true
        ∧ (Timer.update 32 ⟨5, 10, 100, 3, 3, true⟩ 105).1.paused = false
        ∧ (Timer.update 32 ⟨5, 10, 100, 3, 3, true⟩ 105).1.completed = false)
      ∨ ((Timer.update 32 ⟨5, 10, 100, 3, 3, true⟩ 105).1.running = false
        ∧ (Timer.update 32 ⟨5, 10, 100, 3, 3, true⟩ 105).1.paused = true
        ∧ (Timer.update 32 ⟨5, 10, 100, 3, 3, true⟩ 105).1.completed = false)
      ∨ ((Timer.update 32 ⟨5, 10, 100, 3, 3, true⟩ 105).1.running = false
        ∧ (Timer.update 32 ⟨5, 10, 100, 3, 3, true⟩ 105).1.paused = false
        ∧ (Timer.update 32 ⟨5, 10, 100, 3, 3, true⟩ 105).1.completed = true))
    ∧ ((Timer.update 32 ⟨5, 10, 100, 3, 3, true⟩ 105).1.endless = true →
        (Timer.update 32 ⟨5, 10, 100, 3, 3, true⟩ 105).1.duration = -1
          ∧ (Timer.update 32 ⟨5, 10, 100, 3, 3, true⟩ 105).1.remaining = -1)
    ∧ ((Timer.update 32 ⟨5, 10, 100, 3, 3, true⟩ 105).1.endless = false →
        0 ≤ (Timer.update 32 ⟨5, 10, 100, 3, 3, true⟩ 105).1.remaining
          ∧ (Timer.update 32 ⟨5, 10, 100, 3, 3, true⟩ 105).1.remaining
              ≤ (Timer.update 32 ⟨5, 10, 100, 3, 3, true⟩ 105).1.duration) :=
  c20_timer_state_invariant 32 _
    (Timer.Reachable.update ⟨5, 10, 100, 3, 3, true⟩ 105
      (Timer.Reachable.start (Timer.new 5 10 3) 100 ⟨5, 10, 100, 3, 3, true⟩
        (Timer.Reachable.new 5 10 3) (by decide)))

end EmbeddedButton
